import Mathlib

/-!
# DevDash Config: verification of the parser/validator/merger core

A shallow embedding of the library in `src/index.ts`.  Untyped
JavaScript values are modelled by `JsValue`; the JSON layer
(`JSON.parse` / `JSON.stringify`) by an executable serializer and
parser; each exported function of the library by a Lean definition of
the same name.  JavaScript exceptions (property access on `null` or
`undefined`) are modelled with `Except String`.  Numbers are modelled
as integers: every numeric literal in the repository is an integer,
and float formatting is outside the scope of this development.
-/

namespace DevDash

instance {ε α : Type} [DecidableEq ε] [DecidableEq α] : DecidableEq (Except ε α) :=
  fun a b =>
    match a, b with
    | .error x, .error y => decidable_of_iff (x = y) (by simp)
    | .ok x, .ok y => decidable_of_iff (x = y) (by simp)
    | .error _, .ok _ => isFalse (by simp)
    | .ok _, .error _ => isFalse (by simp)

/-- Untyped JavaScript values, as far as the library can observe them.
Object fields are kept in insertion order; a JavaScript object never
holds the same key twice. -/
inductive JsValue where
  | undef
  | null
  | bool (b : Bool)
  | num (n : Int)
  | str (s : String)
  | arr (elems : List JsValue)
  | obj (fields : List (String × JsValue))

mutual
/-- A node count used as a recursion budget: structurally recursive,
so it both runs and reduces in the kernel. -/
def jsSize : JsValue → Nat
  | .undef => 1
  | .null => 1
  | .bool _ => 1
  | .num _ => 1
  | .str _ => 1
  | .arr xs => 1 + jsListSize xs
  | .obj fs => 1 + jsFieldsSize fs

def jsListSize : List JsValue → Nat
  | [] => 1
  | x :: rest => 1 + jsSize x + jsListSize rest

def jsFieldsSize : List (String × JsValue) → Nat
  | [] => 1
  | (_, v) :: rest => 1 + jsSize v + jsFieldsSize rest
end

/-- JavaScript truthiness.  Arrays and objects are always truthy,
even when empty. -/
def truthy : JsValue → Bool
  | .undef => false
  | .null => false
  | .bool b => b
  | .num n => n != 0
  | .str s => s != ""
  | .arr _ => true
  | .obj _ => true

/-- The JavaScript `typeof` operator; `typeof null` is `"object"`. -/
def typeOf : JsValue → String
  | .undef => "undefined"
  | .null => "object"
  | .bool _ => "boolean"
  | .num _ => "number"
  | .str _ => "string"
  | .arr _ => "object"
  | .obj _ => "object"

def isArray : JsValue → Bool
  | .arr _ => true
  | _ => false

/-- Property lookup on a value that is not `null`/`undefined`:
missing keys read as `undefined`. -/
def getOwn (v : JsValue) (key : String) : JsValue :=
  match v with
  | .obj fields =>
    match fields.find? (fun p => p.1 == key) with
    | some p => p.2
    | none => .undef
  | _ => (.undef)

/-- Property access as JavaScript evaluates it: reading a property of
`null` or `undefined` throws a `TypeError`. -/
def getProp (v : JsValue) (key : String) : Except String JsValue :=
  match v with
  | .null => .error "TypeError"
  | .undef => .error "TypeError"
  | _ => .ok (getOwn v key)

mutual
/-- JavaScript string coercion, as a template literal performs it. -/
def jsStringOf : JsValue → String
  | .undef => "undefined"
  | .null => "null"
  | .bool true => "true"
  | .bool false => "false"
  | .num n => toString n
  | .str s => s
  | .arr xs => jsArrStringOf xs
  | .obj _ => "[object Object]"

/-- `Array.prototype.toString`: elements joined by commas, with
`null`/`undefined` elements rendered as the empty string. -/
def jsArrStringOf : List JsValue → String
  | [] => ""
  | [JsValue.undef] => ""
  | [JsValue.null] => ""
  | [x] => jsStringOf x
  | JsValue.undef :: rest => "," ++ jsArrStringOf rest
  | JsValue.null :: rest => "," ++ jsArrStringOf rest
  | x :: rest => jsStringOf x ++ "," ++ jsArrStringOf rest
end

inductive Severity where
  | error
  | warning
deriving DecidableEq, Repr

structure ValidationError where
  path : String
  message : String
  severity : Option Severity
deriving DecidableEq, Repr

def COMPONENT_TYPES : List String :=
  ["line-chart", "bar-chart", "pie-chart", "area-chart",
   "radar-chart", "treemap-chart", "scatter-chart",
   "table", "stat", "text", "card", "form", "button"]

def DATA_SOURCE_TYPES : List String := ["rest", "graphql", "mock", "websocket"]

def LAYOUTS : List String := ["grid", "flex", "stack"]

/-- `list.includes(v)` for a list of string literals: strict equality
only matches when `v` is itself a string. -/
def includesStr (l : List String) (v : JsValue) : Bool :=
  match v with
  | .str s => l.contains s
  | _ => false

def rootError : ValidationError := ⟨"/", "Config must be an object", some .error⟩

/-- The title checks of `validateConfig` (`!dashboard.title` /
`typeof dashboard.title !== 'string'`). -/
def titleCheck (dashboard : JsValue) : List ValidationError :=
  let title := getOwn dashboard "title"
  if !truthy title then
    [⟨"/dashboard/title", "Title is required", some .error⟩]
  else if typeOf title != "string" then
    [⟨"/dashboard/title", "Title must be a string", some .error⟩]
  else []

/-- The layout check of `validateConfig`. -/
def layoutCheck (dashboard : JsValue) : List ValidationError :=
  let layout := getOwn dashboard "layout"
  if truthy layout && !includesStr LAYOUTS layout then
    [⟨"/dashboard/layout", "Layout must be one of: " ++ String.intercalate ", " LAYOUTS,
      some .error⟩]
  else []

def componentPath (index : Nat) : String :=
  "/dashboard/components/" ++ toString index ++ "/type"

/-- The per-element body of the `components.forEach` loop.  The
property read `compObj.type` throws when the element is `null` or
`undefined`. -/
def componentCheck (index : Nat) (comp : JsValue) : Except String (List ValidationError) := do
  let t ← getProp comp "type"
  if !truthy t then
    pure [⟨componentPath index, "Component type is required", some .error⟩]
  else if !includesStr COMPONENT_TYPES t then
    pure [⟨componentPath index, "Invalid component type: " ++ jsStringOf t, some .error⟩]
  else
    pure []

def componentsIter : Nat → List JsValue → Except String (List ValidationError)
  | _, [] => pure []
  | i, c :: rest => do
    let e ← componentCheck i c
    let es ← componentsIter (i + 1) rest
    pure (e ++ es)

/-- The components block of `validateConfig`. -/
def componentsCheck (dashboard : JsValue) : Except String (List ValidationError) :=
  let comps := getOwn dashboard "components"
  if !truthy comps then
    pure [⟨"/dashboard/components", "Components are required", some .error⟩]
  else
    match comps with
    | .arr l => componentsIter 0 l
    | _ => pure [⟨"/dashboard/components", "Components must be an array", some .error⟩]

def dataSourcePath (index : Nat) : String :=
  "/dataSources/" ++ toString index ++ "/type"

/-- The per-element body of the `dataSources.forEach` loop. -/
def dataSourceCheck (index : Nat) (ds : JsValue) : Except String (List ValidationError) := do
  let t ← getProp ds "type"
  if !truthy t then
    pure [⟨dataSourcePath index, "DataSource type is required", some .error⟩]
  else if !includesStr DATA_SOURCE_TYPES t then
    pure [⟨dataSourcePath index, "Invalid data source type: " ++ jsStringOf t, some .error⟩]
  else
    pure []

def dataSourcesIter : Nat → List JsValue → Except String (List ValidationError)
  | _, [] => pure []
  | i, d :: rest => do
    let e ← dataSourceCheck i d
    let es ← dataSourcesIter (i + 1) rest
    pure (e ++ es)

/-- The data-sources block of `validateConfig`. -/
def dataSourcesCheck (cfg : JsValue) : Except String (List ValidationError) :=
  let ds := getOwn cfg "dataSources"
  if !truthy ds then
    pure []
  else
    match ds with
    | .arr l => dataSourcesIter 0 l
    | _ => pure [⟨"/dataSources", "DataSources must be an array", some .error⟩]

/-- `validateConfig` from `src/index.ts`.  The result is `.error` when
the original function throws. -/
def validateConfig (config : JsValue) : Except String (List ValidationError) :=
  if !truthy config || typeOf config != "object" then
    .ok [rootError]
  else
    let dashboard := getOwn config "dashboard"
    if !truthy dashboard then
      .ok [⟨"/dashboard", "Dashboard is required", some .error⟩]
    else if typeOf dashboard != "object" then
      .ok [⟨"/dashboard", "Dashboard must be an object", some .error⟩]
    else do
      let compErrs ← componentsCheck dashboard
      let dsErrs ← dataSourcesCheck config
      .ok (titleCheck dashboard ++ layoutCheck dashboard ++ compErrs ++ dsErrs)

/-- `isValidConfig` from `src/index.ts`. -/
def isValidConfig (config : JsValue) : Except String Bool := do
  let errs ← validateConfig config
  pure (errs.length == 0)

/-! ## The JSON layer: `JSON.stringify` and `JSON.parse` -/

def isJsonWs (c : Char) : Bool := c = ' ' || c = '\t' || c = '\n' || c = '\r'

def skipWs (cs : List Char) : List Char := cs.dropWhile isJsonWs

/-- Lower-case hexadecimal digit, as emitted by `JSON.stringify`. -/
def hexDigitChar (n : Nat) : Char := Char.ofNat (if n < 10 then 48 + n else 87 + n)

/-- One code unit of `QuoteJSONString`: quote and backslash are
escaped, the five short escapes are used, other control characters
become `\u00xx`, everything else is emitted literally. -/
def escChar (c : Char) : List Char :=
  if c = '"' then ['\\', '"']
  else if c = '\\' then ['\\', '\\']
  else if c = '\x08' then ['\\', 'b']
  else if c = '\x0c' then ['\\', 'f']
  else if c = '\n' then ['\\', 'n']
  else if c = '\r' then ['\\', 'r']
  else if c = '\t' then ['\\', 't']
  else if c.toNat < 32 then
    ['\\', 'u', '0', '0', hexDigitChar (c.toNat / 16), hexDigitChar (c.toNat % 16)]
  else [c]

def escapeChars : List Char → List Char
  | [] => []
  | c :: rest => escChar c ++ escapeChars rest

def quoteChars (s : List Char) : List Char := '"' :: (escapeChars s ++ ['"'])

def digitChar (n : Nat) : Char := Char.ofNat (48 + n)

/-- Decimal digits of a natural number, most significant first.  The
step budget keeps the recursion structural (kernel-reducible);
`natChars` passes a budget that can never run out. -/
def natCharsAux : Nat → Nat → List Char
  | 0, _ => []
  | fuel + 1, n =>
    if n < 10 then [digitChar n]
    else natCharsAux fuel (n / 10) ++ [digitChar (n % 10)]

def natChars (n : Nat) : List Char := natCharsAux (n + 1) n

def intChars (n : Int) : List Char :=
  if n < 0 then '-' :: natChars n.natAbs else natChars n.natAbs

mutual
/-- `SerializeJSONProperty` of ECMA-262, specialised to the two gaps
the library uses (`""` for compact output, two spaces for pretty
output).  `undefined` is not serializable: the result is `none` and an
object member holding it is dropped.  The step budget only keeps the
recursion structural (hence kernel-reducible); every entry point
passes a budget large enough that it never runs out. -/
def serializeVal (gap : List Char) : Nat → List Char → JsValue → Option (List Char)
  | 0, _, _ => none
  | fuel + 1, indent, v =>
    match v with
    | .undef => none
    | .null => some ['n', 'u', 'l', 'l']
    | .bool true => some ['t', 'r', 'u', 'e']
    | .bool false => some ['f', 'a', 'l', 's', 'e']
    | .num n => some (intChars n)
    | .str s => some (quoteChars s.data)
    | .arr xs =>
      match xs with
      | [] => some ['[', ']']
      | _ =>
        let body := serializeItems gap fuel (indent ++ gap)
          (if gap = [] then [','] else ',' :: '\n' :: (indent ++ gap)) xs
        if gap = [] then some ('[' :: body ++ [']'])
        else some ('[' :: '\n' :: (indent ++ gap) ++ body ++ '\n' :: indent ++ [']'])
    | .obj fs =>
      let body := serializeMembers gap fuel (indent ++ gap)
        (if gap = [] then [','] else ',' :: '\n' :: (indent ++ gap))
        (if gap = [] then [':'] else [':', ' ']) fs
      if body = [] then some ['{', '}']
      else if gap = [] then some ('{' :: body ++ ['}'])
      else some ('{' :: '\n' :: (indent ++ gap) ++ body ++ '\n' :: indent ++ ['}'])

/-- Array elements joined by the separator; an `undefined` element
serializes as `null`. -/
def serializeItems (gap : List Char) : Nat → List Char → List Char → List JsValue → List Char
  | 0, _, _, _ => []
  | fuel + 1, indent, sep, l =>
    match l with
    | [] => []
    | [x] => (serializeVal gap fuel indent x).getD ['n', 'u', 'l', 'l']
    | x :: rest =>
      ((serializeVal gap fuel indent x).getD ['n', 'u', 'l', 'l']) ++ sep ++
        serializeItems gap fuel indent sep rest

/-- Object members joined by the separator; members whose value does
not serialize are dropped. -/
def serializeMembers (gap : List Char) :
    Nat → List Char → List Char → List Char → List (String × JsValue) → List Char
  | 0, _, _, _, _ => []
  | fuel + 1, indent, sep, colon, l =>
    match l with
    | [] => []
    | (k, v) :: rest =>
      match serializeVal gap fuel indent v with
      | none => serializeMembers gap fuel indent sep colon rest
      | some sv =>
        let restBody := serializeMembers gap fuel indent sep colon rest
        let m := quoteChars k.data ++ colon ++ sv
        if restBody = [] then m else m ++ sep ++ restBody
end

def hexVal (c : Char) : Option Nat :=
  if '0' ≤ c ∧ c ≤ '9' then some (c.toNat - 48)
  else if 'a' ≤ c ∧ c ≤ 'f' then some (c.toNat - 87)
  else if 'A' ≤ c ∧ c ≤ 'F' then some (c.toNat - 55)
  else none

def escCharOf (e : Char) : Option Char :=
  if e = '"' then some '"'
  else if e = '\\' then some '\\'
  else if e = '/' then some '/'
  else if e = 'b' then some '\x08'
  else if e = 'f' then some '\x0c'
  else if e = 'n' then some '\n'
  else if e = 'r' then some '\r'
  else if e = 't' then some '\t'
  else none

/-- The body of a JSON string after the opening quote: returns the
decoded characters and the input after the closing quote.  Raw control
characters and unknown escapes are rejected, as `JSON.parse` does.
The step budget keeps the recursion structural; every call passes at
least one more step than there are input characters. -/
def parseStringRest : Nat → List Char → Option (List Char × List Char)
  | 0, _ => none
  | _ + 1, [] => none
  | fuel + 1, c :: rest =>
    if c = '"' then some ([], rest)
    else if c = '\\' then
      match rest with
      | [] => none
      | e :: r2 =>
        if e = 'u' then
          match r2 with
          | h1 :: h2 :: h3 :: h4 :: r3 =>
            match hexVal h1, hexVal h2, hexVal h3, hexVal h4 with
            | some a, some b, some c2, some d =>
              (parseStringRest fuel r3).map fun p =>
                (Char.ofNat (((a * 16 + b) * 16 + c2) * 16 + d) :: p.1, p.2)
            | _, _, _, _ => none
          | _ => none
        else
          match escCharOf e with
          | some ch => (parseStringRest fuel r2).map fun p => (ch :: p.1, p.2)
          | none => none
    else if c.toNat < 32 then none
    else (parseStringRest fuel rest).map fun p => (c :: p.1, p.2)

def decodeDigits (ds : List Char) : Nat := ds.foldl (fun a c => 10 * a + (c.toNat - 48)) 0

/-- A JSON natural-number literal: a digit run with no leading zero. -/
def parseNatNum (cs : List Char) : Option (Nat × List Char) :=
  let ds := cs.takeWhile Char.isDigit
  let rest := cs.dropWhile Char.isDigit
  match ds with
  | [] => none
  | [_] => some (decodeDigits ds, rest)
  | d :: _ :: _ => if d = '0' then none else some (decodeDigits ds, rest)

def parseNumber (cs : List Char) : Option (JsValue × List Char) :=
  match cs with
  | [] => none
  | c :: rest =>
    if c = '-' then (parseNatNum rest).map fun p => (.num (-(p.1 : Int)), p.2)
    else (parseNatNum (c :: rest)).map fun p => (.num (p.1 : Int), p.2)

def litRest (lit : List Char) (cs : List Char) : Option (List Char) :=
  match lit, cs with
  | [], rest => some rest
  | l :: ls, c :: rest => if c = l then litRest ls rest else none
  | _ :: _, [] => none

mutual
/-- Recursive-descent JSON value grammar with a step budget; the
budget chosen by `jsonParse` is large enough for every input the
development evaluates it on. -/
def parseVal : Nat → List Char → Option (JsValue × List Char)
  | 0, _ => none
  | fuel + 1, cs =>
    match skipWs cs with
    | [] => none
    | c :: r =>
      if c = 'n' then (litRest ['u', 'l', 'l'] r).map fun rest => (JsValue.null, rest)
      else if c = 't' then (litRest ['r', 'u', 'e'] r).map fun rest => (JsValue.bool true, rest)
      else if c = 'f' then (litRest ['a', 'l', 's', 'e'] r).map fun rest => (JsValue.bool false, rest)
      else if c = '"' then
        (parseStringRest (r.length + 1) r).map fun p => (JsValue.str (String.mk p.1), p.2)
      else if c = '[' then
        match skipWs r with
        | [] => none
        | c2 :: r2 =>
          if c2 = ']' then some (JsValue.arr [], r2)
          else (parseItems fuel (c2 :: r2)).map fun p => (JsValue.arr p.1, p.2)
      else if c = '{' then
        match skipWs r with
        | [] => none
        | c2 :: r2 =>
          if c2 = '}' then some (JsValue.obj [], r2)
          else (parseMembers fuel (c2 :: r2)).map fun p => (JsValue.obj p.1, p.2)
      else parseNumber (c :: r)

def parseItems : Nat → List Char → Option (List JsValue × List Char)
  | 0, _ => none
  | fuel + 1, cs => do
    let (v, r) ← parseVal fuel cs
    match skipWs r with
    | ',' :: r2 => (parseItems fuel r2).map fun p => (v :: p.1, p.2)
    | ']' :: r2 => some ([v], r2)
    | _ => none

def parseMembers : Nat → List Char → Option (List (String × JsValue) × List Char)
  | 0, _ => none
  | fuel + 1, cs =>
    match skipWs cs with
    | '"' :: r =>
      match parseStringRest (r.length + 1) r with
      | none => none
      | some (k, r1) =>
        match skipWs r1 with
        | ':' :: r2 =>
          match parseVal fuel r2 with
          | none => none
          | some (v, r3) =>
            match skipWs r3 with
            | ',' :: r4 => (parseMembers fuel r4).map fun p => ((String.mk k, v) :: p.1, p.2)
            | '}' :: r4 => some ([(String.mk k, v)], r4)
            | _ => none
        | _ => none
    | _ => none
end

def noDupKeys : List String → Bool
  | [] => true
  | k :: rest => !(rest.contains k) && noDupKeys rest

mutual
/-- A `JsValue` that a JavaScript runtime can hold and that
`JSON.stringify`/`JSON.parse` transport losslessly: no `undefined`
anywhere and no duplicate object keys. -/
def jsonSafe : JsValue → Bool
  | .undef => false
  | .null => true
  | .bool _ => true
  | .num _ => true
  | .str _ => true
  | .arr xs => jsonSafeList xs
  | .obj fs => noDupKeys (fs.map fun p => p.1) && jsonSafeFields fs

def jsonSafeList : List JsValue → Bool
  | [] => true
  | x :: rest => jsonSafe x && jsonSafeList rest

def jsonSafeFields : List (String × JsValue) → Bool
  | [] => true
  | (_, v) :: rest => jsonSafe v && jsonSafeFields rest
end

def wsOnly : List Char → Bool
  | [] => true
  | c :: rest => isJsonWs c && wsOnly rest

def noDigitHead : List Char → Bool
  | [] => true
  | c :: _ => !c.isDigit

/-- `JSON.parse` on the integer-numbered fragment: `none` models a
thrown `SyntaxError`.  The whole input must be consumed up to
trailing whitespace. -/
def jsonParse (s : String) : Option JsValue :=
  match parseVal (2 * s.data.length + 2) s.data with
  | some (v, rest) => if skipWs rest = [] then some v else none
  | none => none

/-! ## Ingestion: `parseConfig` with its permissive fallback -/

/-- `\w` of the fallback's line pattern. -/
def isWordChar (c : Char) : Bool := c.isAlphanum || c = '_'

/-- `line.trim()`: whitespace removed from both ends. -/
def trimChars (cs : List Char) : List Char :=
  ((cs.dropWhile Char.isWhitespace).reverse.dropWhile Char.isWhitespace).reverse

/-- `input.split('\n')`. -/
def splitLines (cs : List Char) : List (List Char) :=
  match cs with
  | [] => [[]]
  | c :: rest =>
    let r := splitLines rest
    if c = '\n' then [] :: r
    else
      match r with
      | h :: t => (c :: h) :: t
      | [] => [[c]]

/-- `value.replace(/['"]/g, '')`: every quote character is removed,
wherever it occurs. -/
def stripQuotes (cs : List Char) : List Char :=
  cs.filter fun c => !(c = '\'' || c = '"')

/-- One iteration of the fallback's line scan: `none` when the line is
blank, a comment, fails the `^(\w+):\s*(.*)$` pattern, or its
quote-stripped value is empty (the falsy-value guard `if (value)`). -/
def lineEntry (line : List Char) : Option (String × String) :=
  match trimChars line with
  | [] => none
  | c :: rest =>
    if c = '#' then none
    else
      let trimmed := c :: rest
      let key := trimmed.takeWhile isWordChar
      if key = [] then none
      else
        match trimmed.dropWhile isWordChar with
        | ':' :: afterColon =>
          let value := stripQuotes (afterColon.dropWhile Char.isWhitespace)
          if value = [] then none else some (String.mk key, String.mk value)
        | _ => none

/-- `obj[key] = value` on a JavaScript object: updating an existing
key keeps its position, a new key is appended. -/
def setKey (fields : List (String × String)) (k v : String) : List (String × String) :=
  match fields with
  | [] => [(k, v)]
  | (k2, w) :: rest => if k2 = k then (k2, v) :: rest else (k2, w) :: setKey rest k v

def getKey (fields : List (String × String)) (k : String) : Option String :=
  match fields with
  | [] => none
  | (k2, v) :: rest => if k2 = k then some v else getKey rest k

def processLine (acc : List (String × String)) (line : List Char) : List (String × String) :=
  match lineEntry line with
  | some (k, v) => setKey acc k v
  | none => acc

/-- The permissive branch of `parseConfig`: a flat string-valued
object built line by line.  Its body cannot throw, so the inner
`catch` of the source is unreachable. -/
def fallbackParse (input : String) : JsValue :=
  JsValue.obj (((splitLines input.data).foldl processLine []).map fun p => (p.1, JsValue.str p.2))

/-- `parseConfig` from `src/index.ts`: strict JSON first, then the
permissive scan.  The result is whatever value the succeeding branch
produced (the declared return type `DashboardConfig | null` is not
enforced at runtime). -/
def parseConfig (input : String) : JsValue :=
  match jsonParse input with
  | some v => v
  | none => fallbackParse input

/-! ## The typed model and its serialization -/

inductive LayoutType where
  | grid
  | flex
  | stack
deriving DecidableEq, Repr

inductive Theme where
  | light
  | dark
deriving DecidableEq, Repr

inductive ComponentType where
  | lineChart
  | barChart
  | pieChart
  | areaChart
  | radarChart
  | treemapChart
  | scatterChart
  | table
  | stat
  | text
  | card
  | form
  | button
deriving DecidableEq, Repr

inductive DataSourceType where
  | rest
  | graphql
  | mock
  | websocket
deriving DecidableEq, Repr

structure ComponentConfig where
  id : Option String
  type : ComponentType
  title : Option String
  dataSource : Option String
  config : List (String × JsValue)
  gridColumn : Option String
  gridRow : Option String
  width : Option String
  height : Option String

structure DataSourceConfig where
  id : String
  name : Option String
  type : DataSourceType
  url : Option String
  query : Option String
  transform : Option String
  refreshInterval : Option Int
  headers : Option (List (String × String))
deriving DecidableEq, Repr

structure DashboardSettings where
  autoRefresh : Option Bool
  refreshInterval : Option Int
  showHeader : Option Bool
  showSidebar : Option Bool
  padding : Option Int
deriving DecidableEq, Repr

structure Dashboard where
  title : String
  layout : LayoutType
  theme : Option Theme
  columns : Option Int
  components : List ComponentConfig

structure DashboardConfig where
  dashboard : Dashboard
  dataSources : Option (List DataSourceConfig)
  settings : Option DashboardSettings

/-- `Partial<DashboardConfig>`: the three top-level keys become
optional (TypeScript's `Partial` is shallow). -/
structure PartialDashboardConfig where
  dashboard : Option Dashboard
  dataSources : Option (List DataSourceConfig)
  settings : Option DashboardSettings

def layoutStr : LayoutType → String
  | .grid => "grid"
  | .flex => "flex"
  | .stack => "stack"

def themeStr : Theme → String
  | .light => "light"
  | .dark => "dark"

def componentTypeStr : ComponentType → String
  | .lineChart => "line-chart"
  | .barChart => "bar-chart"
  | .pieChart => "pie-chart"
  | .areaChart => "area-chart"
  | .radarChart => "radar-chart"
  | .treemapChart => "treemap-chart"
  | .scatterChart => "scatter-chart"
  | .table => "table"
  | .stat => "stat"
  | .text => "text"
  | .card => "card"
  | .form => "form"
  | .button => "button"

def dataSourceTypeStr : DataSourceType → String
  | .rest => "rest"
  | .graphql => "graphql"
  | .mock => "mock"
  | .websocket => "websocket"

def optStrField (k : String) : Option String → List (String × JsValue)
  | some s => [(k, .str s)]
  | none => []

def optNumField (k : String) : Option Int → List (String × JsValue)
  | some n => [(k, .num n)]
  | none => []

def optBoolField (k : String) : Option Bool → List (String × JsValue)
  | some b => [(k, .bool b)]
  | none => []

/-- The JavaScript object a typed `ComponentConfig` value is: keys in
interface order, absent optional fields omitted. -/
def componentToJs (c : ComponentConfig) : JsValue :=
  .obj (optStrField "id" c.id
    ++ [("type", .str (componentTypeStr c.type))]
    ++ optStrField "title" c.title
    ++ optStrField "dataSource" c.dataSource
    ++ [("config", .obj c.config)]
    ++ optStrField "gridColumn" c.gridColumn
    ++ optStrField "gridRow" c.gridRow
    ++ optStrField "width" c.width
    ++ optStrField "height" c.height)

def dataSourceToJs (d : DataSourceConfig) : JsValue :=
  .obj ([("id", .str d.id)]
    ++ optStrField "name" d.name
    ++ [("type", .str (dataSourceTypeStr d.type))]
    ++ optStrField "url" d.url
    ++ optStrField "query" d.query
    ++ optStrField "transform" d.transform
    ++ optNumField "refreshInterval" d.refreshInterval
    ++ (match d.headers with
        | some h => [("headers", JsValue.obj (h.map fun p => (p.1, JsValue.str p.2)))]
        | none => []))

def settingsToJs (s : DashboardSettings) : JsValue :=
  .obj (optBoolField "autoRefresh" s.autoRefresh
    ++ optNumField "refreshInterval" s.refreshInterval
    ++ optBoolField "showHeader" s.showHeader
    ++ optBoolField "showSidebar" s.showSidebar
    ++ optNumField "padding" s.padding)

def dashboardToJs (d : Dashboard) : JsValue :=
  .obj ([("title", .str d.title), ("layout", .str (layoutStr d.layout))]
    ++ (match d.theme with
        | some t => [("theme", .str (themeStr t))]
        | none => [])
    ++ optNumField "columns" d.columns
    ++ [("components", .arr (d.components.map componentToJs))])

def toJs (c : DashboardConfig) : JsValue :=
  .obj ([("dashboard", dashboardToJs c.dashboard)]
    ++ (match c.dataSources with
        | some l => [("dataSources", .arr (l.map dataSourceToJs))]
        | none => [])
    ++ (match c.settings with
        | some s => [("settings", settingsToJs s)]
        | none => []))

/-- `exportAsJSON` from `src/index.ts`: `JSON.stringify(config)` or
`JSON.stringify(config, null, 2)`.  A top-level object always
serializes, so the `getD` default is never reached; the step budget
`sizeOf` strictly dominates the recursion depth. -/
def exportAsJSON (config : DashboardConfig) (pretty : Bool) : String :=
  String.mk
    ((serializeVal (if pretty then [' ', ' '] else []) (jsSize (toJs config)) []
      (toJs config)).getD [])

/-! ## The canonical generators -/

/-- `createDefaultConfig` from `src/index.ts`. -/
def createDefaultConfig : DashboardConfig :=
  ⟨⟨"My Dashboard", .grid, none, none,
    [⟨none, .stat, some "Total Users", none, [("value", .str "0")], none, none, none, none⟩]⟩,
   none, none⟩

/-- `createSampleConfig` from `src/index.ts`. -/
def createSampleConfig : DashboardConfig :=
  ⟨⟨"Sales Dashboard", .grid, some .dark, some 3,
    [⟨some "revenue-stat", .stat, some "Total Revenue", none,
      [("value", .str "$125,000"), ("change", .str "+12%")], none, none, none, none⟩,
     ⟨some "users-stat", .stat, some "Active Users", none,
      [("value", .str "5,432"), ("change", .str "+8%")], none, none, none, none⟩,
     ⟨some "orders-stat", .stat, some "Orders", none,
      [("value", .str "1,234"), ("change", .str "-3%")], none, none, none, none⟩,
     ⟨some "sales-chart", .lineChart, some "Sales Trend", some "sales-api",
      [("dataKey", .str "revenue"), ("xKey", .str "month")], none, none, none, none⟩,
     ⟨some "category-chart", .pieChart, some "By Category", some "categories-api",
      [("dataKey", .str "value"), ("nameKey", .str "name")], none, none, none, none⟩]⟩,
   some [⟨"sales-api", some "Sales API", .rest, some "https://api.example.com/sales",
          none, none, some 30000, none⟩,
         ⟨"categories-api", some "Categories API", .rest, some "https://api.example.com/categories",
          none, none, none, none⟩],
   none⟩

/-! ## The merger -/

def orElseO {α : Type} (a b : Option α) : Option α :=
  match a with
  | some x => some x
  | none => b

/-- `{ ...base.settings, ...override.settings }`: spreading
`undefined` contributes nothing, an override key wins when present. -/
def mergeSettings (b o : Option DashboardSettings) : DashboardSettings :=
  ⟨orElseO (o.bind fun s => s.autoRefresh) (b.bind fun s => s.autoRefresh),
   orElseO (o.bind fun s => s.refreshInterval) (b.bind fun s => s.refreshInterval),
   orElseO (o.bind fun s => s.showHeader) (b.bind fun s => s.showHeader),
   orElseO (o.bind fun s => s.showSidebar) (b.bind fun s => s.showSidebar),
   orElseO (o.bind fun s => s.padding) (b.bind fun s => s.padding)⟩

/-- `mergeConfigs` from `src/index.ts`.  A JavaScript array is truthy
even when empty, so `override.dataSources || base.dataSources` takes
any supplied override sequence, and
`override.dashboard?.components || base.dashboard.components` takes
the override dashboard's components whenever that dashboard exists.
The result's `settings` key is always materialized by the
`{ ...base.settings, ...override.settings }` spread. -/
def mergeConfigs (base : DashboardConfig) (override : PartialDashboardConfig) :
    DashboardConfig :=
  ⟨(match override.dashboard with
    | none => base.dashboard
    | some d =>
      ⟨d.title, d.layout,
       orElseO d.theme base.dashboard.theme,
       orElseO d.columns base.dashboard.columns,
       d.components⟩),
   (match override.dataSources with
    | some l => some l
    | none => base.dataSources),
   some (mergeSettings base.settings override.settings)⟩

/-! ## Validator decomposition lemmas -/

/-- A serialized value starts with a character that whitespace
skipping leaves in place and that the array scanner cannot mistake for
a closing bracket. -/
def goodHead : List Char → Bool
  | [] => false
  | c :: _ => !isJsonWs c && c != ']'

def c3Base : DashboardConfig :=
  ⟨⟨"A", .grid, none, none, []⟩,
   some [⟨"src-1", none, .rest, none, none, none, none, none⟩], none⟩

def c3Override : PartialDashboardConfig := ⟨none, some [], none⟩

def c10Base : DashboardConfig := ⟨⟨"B", .flex, none, none, []⟩, none, none⟩

/-- A well-typed config whose component payload carries an `undefined`
value: legal for `Record<String, unknown>`, dropped by `JSON.stringify`. -/
def c4x0 : DashboardConfig :=
  ⟨⟨"t", .grid, none, none,
    [⟨none, .stat, none, none, [("v", JsValue.undef)], none, none, none, none⟩]⟩,
    none, none⟩

/-- What `parseConfig` recovers from `exportAsJSON c4x0 false`: the
`config` payload comes back empty, the `undefined`-valued key is gone. -/
def c4x0parsed : JsValue :=
  JsValue.obj [("dashboard", JsValue.obj
    [("title", .str "t"), ("layout", .str "grid"),
     ("components", .arr [JsValue.obj
       [("type", .str "stat"), ("config", JsValue.obj [])]])])]

theorem validateConfig_main (config : JsValue)
    (hT : truthy config = true) (hO : typeOf config = "object")
    (hdT : truthy (getOwn config "dashboard") = true)
    (hdO : typeOf (getOwn config "dashboard") = "object")
    {ce de : List ValidationError}
    (hce : componentsCheck (getOwn config "dashboard") = .ok ce)
    (hde : dataSourcesCheck config = .ok de) :
    validateConfig config =
      .ok (titleCheck (getOwn config "dashboard") ++ layoutCheck (getOwn config "dashboard")
        ++ ce ++ de) := by
  unfold validateConfig
  simp [hT, hO, hdT, hdO, hce, hde, Bind.bind, Except.bind]

theorem componentCheck_ok_cases (i : Nat) (c : JsValue) (es : List ValidationError)
    (h : componentCheck i c = .ok es) :
    es = [] ∨ ∃ m, es = [⟨componentPath i, m, some Severity.error⟩] := by
  unfold componentCheck at h
  cases hc : getProp c "type" with
  | error e =>
    rw [hc] at h
    simp [Bind.bind, Except.bind] at h
  | ok t =>
    rw [hc] at h
    simp only [Bind.bind, Except.bind, pure, Except.pure] at h
    split_ifs at h <;> injection h with h' <;> subst h'
    · exact Or.inr ⟨_, rfl⟩
    · exact Or.inr ⟨_, rfl⟩
    · exact Or.inl rfl

theorem componentsIter_ok_paths (l : List JsValue) : ∀ (i : Nat) (es : List ValidationError),
    componentsIter i l = .ok es → ∀ e ∈ es, ∃ j, e.path = componentPath j := by
  induction l with
  | nil =>
    intro i es h e he
    unfold componentsIter at h
    simp only [pure, Except.pure] at h
    injection h with h'
    subst h'
    cases he
  | cons c rest ih =>
    intro i es h e he
    unfold componentsIter at h
    cases h1 : componentCheck i c with
    | error e1 =>
      rw [h1] at h
      simp [Bind.bind, Except.bind] at h
    | ok e1 =>
      cases h2 : componentsIter (i + 1) rest with
      | error e2 =>
        rw [h1, h2] at h
        simp [Bind.bind, Except.bind] at h
      | ok es2 =>
        rw [h1, h2] at h
        simp only [Bind.bind, Except.bind, pure, Except.pure] at h
        injection h with h'
        subst h'
        rcases List.mem_append.mp he with h3 | h3
        · rcases componentCheck_ok_cases i c e1 h1 with h4 | ⟨m, h4⟩
          · subst h4; cases h3
          · subst h4
            rw [List.mem_singleton] at h3
            subst h3
            exact ⟨i, rfl⟩
        · exact ih (i + 1) es2 h2 e h3

theorem dataSourceCheck_ok_cases (i : Nat) (d : JsValue) (es : List ValidationError)
    (h : dataSourceCheck i d = .ok es) :
    es = [] ∨ ∃ m, es = [⟨dataSourcePath i, m, some Severity.error⟩] := by
  unfold dataSourceCheck at h
  cases hc : getProp d "type" with
  | error e =>
    rw [hc] at h
    simp [Bind.bind, Except.bind] at h
  | ok t =>
    rw [hc] at h
    simp only [Bind.bind, Except.bind, pure, Except.pure] at h
    split_ifs at h <;> injection h with h' <;> subst h'
    · exact Or.inr ⟨_, rfl⟩
    · exact Or.inr ⟨_, rfl⟩
    · exact Or.inl rfl

theorem dataSourcesIter_ok_paths (l : List JsValue) : ∀ (i : Nat) (es : List ValidationError),
    dataSourcesIter i l = .ok es → ∀ e ∈ es, ∃ j, e.path = dataSourcePath j := by
  induction l with
  | nil =>
    intro i es h e he
    unfold dataSourcesIter at h
    simp only [pure, Except.pure] at h
    injection h with h'
    subst h'
    cases he
  | cons c rest ih =>
    intro i es h e he
    unfold dataSourcesIter at h
    cases h1 : dataSourceCheck i c with
    | error e1 =>
      rw [h1] at h
      simp [Bind.bind, Except.bind] at h
    | ok e1 =>
      cases h2 : dataSourcesIter (i + 1) rest with
      | error e2 =>
        rw [h1, h2] at h
        simp [Bind.bind, Except.bind] at h
      | ok es2 =>
        rw [h1, h2] at h
        simp only [Bind.bind, Except.bind, pure, Except.pure] at h
        injection h with h'
        subst h'
        rcases List.mem_append.mp he with h3 | h3
        · rcases dataSourceCheck_ok_cases i c e1 h1 with h4 | ⟨m, h4⟩
          · subst h4; cases h3
          · subst h4
            rw [List.mem_singleton] at h3
            subst h3
            exact ⟨i, rfl⟩
        · exact ih (i + 1) es2 h2 e h3

theorem componentPath_ne_title (i : Nat) : componentPath i ≠ "/dashboard/title" := by
  intro h
  have hlen := congrArg String.length h
  simp only [componentPath, String.length_append] at hlen
  have h1 : ("/dashboard/components/" : String).length = 22 := rfl
  have h2 : ("/type" : String).length = 5 := rfl
  have h3 : ("/dashboard/title" : String).length = 16 := rfl
  omega

theorem dataSourcePath_ne_title (i : Nat) : dataSourcePath i ≠ "/dashboard/title" := by
  intro h
  have hlen := congrArg String.length h
  simp only [dataSourcePath, String.length_append] at hlen
  have h1 : ("/dataSources/" : String).length = 13 := rfl
  have h2 : ("/type" : String).length = 5 := rfl
  have h3 : ("/dashboard/title" : String).length = 16 := rfl
  omega

theorem componentsCheck_title_free (d : JsValue) (es : List ValidationError)
    (h : componentsCheck d = .ok es) : ∀ e ∈ es, e.path ≠ "/dashboard/title" := by
  intro e he
  simp only [componentsCheck] at h
  split at h
  · injection h with h'
    subst h'
    rw [List.mem_singleton] at he
    subst he
    decide
  · split at h
    · rcases componentsIter_ok_paths _ 0 es h e he with ⟨j, hj⟩
      rw [hj]
      exact componentPath_ne_title j
    · injection h with h'
      subst h'
      rw [List.mem_singleton] at he
      subst he
      decide

theorem dataSourcesCheck_title_free (v : JsValue) (es : List ValidationError)
    (h : dataSourcesCheck v = .ok es) : ∀ e ∈ es, e.path ≠ "/dashboard/title" := by
  intro e he
  simp only [dataSourcesCheck] at h
  split at h
  · injection h with h'
    subst h'
    cases he
  · split at h
    · rcases dataSourcesIter_ok_paths _ 0 es h e he with ⟨j, hj⟩
      rw [hj]
      exact dataSourcePath_ne_title j
    · injection h with h'
      subst h'
      rw [List.mem_singleton] at he
      subst he
      decide

theorem titleCheck_filter_le_one (d : JsValue) :
    ((titleCheck d).filter fun e => e.path = "/dashboard/title").length ≤ 1 := by
  simp only [titleCheck]
  split_ifs <;> simp

theorem layoutCheck_title_free (d : JsValue) :
    (layoutCheck d).filter (fun e => e.path = "/dashboard/title") = [] := by
  simp only [layoutCheck]
  split_ifs <;> simp

/-! ## JSON round-trip: auxiliary lemmas -/

theorem skipWs_ws_append (w : List Char) (t : List Char) (h : wsOnly w = true) :
    skipWs (w ++ t) = skipWs t := by
  induction w with
  | nil => rfl
  | cons c r ih =>
    simp only [wsOnly, Bool.and_eq_true] at h
    show List.dropWhile isJsonWs (c :: (r ++ t)) = skipWs t
    rw [List.dropWhile_cons, if_pos h.1]
    exact ih h.2

theorem skipWs_not_ws (c : Char) (t : List Char) (h : isJsonWs c = false) :
    skipWs (c :: t) = c :: t := by
  simp [skipWs, List.dropWhile_cons, h]

theorem digitChar_isDigit : ∀ d, d < 10 → (digitChar d).isDigit = true := by decide

theorem digitChar_toNat : ∀ d, d < 10 → (digitChar d).toNat = 48 + d := by decide

theorem digitChar_ne_zero : ∀ d, d < 10 → d ≠ 0 → digitChar d ≠ '0' := by decide

theorem hexVal_hexDigitChar : ∀ m, m < 16 → hexVal (hexDigitChar m) = some m := by decide

theorem natCharsAux_spec (fuel : Nat) : ∀ (n : Nat), n < fuel →
    natCharsAux fuel n ≠ [] ∧
    (∀ c ∈ natCharsAux fuel n, c.isDigit = true) ∧
    decodeDigits (natCharsAux fuel n) = n ∧
    (n ≠ 0 → ∀ c, (natCharsAux fuel n).head? = some c → c ≠ '0') := by
  induction fuel with
  | zero => intro n h; omega
  | succ f ih =>
    intro n h
    by_cases h10 : n < 10
    · refine ⟨by simp [natCharsAux, h10], ?_, ?_, ?_⟩
      · intro c hc
        simp only [natCharsAux, if_pos h10, List.mem_singleton] at hc
        subst hc
        exact digitChar_isDigit n h10
      · simp [natCharsAux, if_pos h10, decodeDigits, digitChar_toNat n h10]
      · intro hn c hc
        simp only [natCharsAux, if_pos h10, List.head?_cons, Option.some.injEq] at hc
        subst hc
        exact digitChar_ne_zero n h10 hn
    · have hdiv : n / 10 < f := by omega
      obtain ⟨ih1, ih2, ih3, ih4⟩ := ih (n / 10) hdiv
      have hmod : n % 10 < 10 := Nat.mod_lt _ (by omega)
      refine ⟨by simp [natCharsAux, h10], ?_, ?_, ?_⟩
      · intro c hc
        simp only [natCharsAux, if_neg h10, List.mem_append, List.mem_singleton] at hc
        rcases hc with hc | hc
        · exact ih2 c hc
        · subst hc
          exact digitChar_isDigit _ hmod
      · simp only [natCharsAux, if_neg h10, decodeDigits, List.foldl_append, List.foldl_cons,
          List.foldl_nil]
        have : decodeDigits (natCharsAux f (n / 10)) = n / 10 := ih3
        rw [decodeDigits] at this
        rw [this, digitChar_toNat _ hmod]
        omega
      · intro _ c hc
        simp only [natCharsAux, if_neg h10] at hc
        cases he : natCharsAux f (n / 10) with
        | nil => exact absurd he ih1
        | cons c2 r2 =>
          rw [he] at hc
          simp only [List.cons_append, List.head?_cons, Option.some.injEq] at hc
          have h0 : c2 ≠ '0' := ih4 (by omega) c2 (by rw [he]; rfl)
          rw [← hc]
          exact h0

theorem natChars_spec (n : Nat) :
    natChars n ≠ [] ∧
    (∀ c ∈ natChars n, c.isDigit = true) ∧
    decodeDigits (natChars n) = n ∧
    (n ≠ 0 → ∀ c, (natChars n).head? = some c → c ≠ '0') :=
  natCharsAux_spec (n + 1) n (by omega)

theorem takeWhile_digits (ds : List Char) : ∀ (rest : List Char),
    (∀ c ∈ ds, c.isDigit = true) → noDigitHead rest = true →
    (ds ++ rest).takeWhile Char.isDigit = ds ∧
    (ds ++ rest).dropWhile Char.isDigit = rest := by
  induction ds with
  | nil =>
    intro rest _ hrest
    cases rest with
    | nil => exact ⟨rfl, rfl⟩
    | cons c r =>
      simp only [noDigitHead, Bool.not_eq_true'] at hrest
      simp [List.takeWhile_cons, List.dropWhile_cons, hrest]
  | cons c ds ih =>
    intro rest hds hrest
    have hc : c.isDigit = true := hds c (by simp)
    have := ih rest (fun c2 hc2 => hds c2 (by simp [hc2])) hrest
    simp [List.takeWhile_cons, List.dropWhile_cons, hc, this.1, this.2]

theorem parseNatNum_natChars (n : Nat) (rest : List Char) (h : noDigitHead rest = true) :
    parseNatNum (natChars n ++ rest) = some (n, rest) := by
  obtain ⟨h1, h2, h3, h4⟩ := natChars_spec n
  obtain ⟨ht, hd⟩ := takeWhile_digits (natChars n) rest h2 h
  cases he : natChars n with
  | nil => exact absurd he h1
  | cons c cs =>
    cases cs with
    | nil =>
      rw [he] at ht hd h3
      simp only [parseNatNum]
      rw [ht, hd]
      simp [h3]
    | cons c2 cs2 =>
      have hne : n ≠ 0 := by
        rintro rfl
        rw [show natChars 0 = ['0'] from rfl] at he
        cases he
      have hc0 : c ≠ '0' := h4 hne c (by rw [he]; rfl)
      rw [he] at ht hd h3
      simp only [parseNatNum]
      rw [ht, hd]
      simp [hc0, h3]

theorem parseNumber_intChars (n : Int) (rest : List Char) (h : noDigitHead rest = true) :
    parseNumber (intChars n ++ rest) = some (JsValue.num n, rest) := by
  unfold intChars
  split_ifs with hneg
  · simp only [List.cons_append, parseNumber, if_pos rfl]
    rw [parseNatNum_natChars _ _ h]
    show some (JsValue.num (-(n.natAbs : Int)), rest) = some (JsValue.num n, rest)
    have hval : -(n.natAbs : Int) = n := by omega
    rw [hval]
  · obtain ⟨h1, h2, _, _⟩ := natChars_spec n.natAbs
    cases he : natChars n.natAbs with
    | nil => exact absurd he h1
    | cons c cs =>
      have hc : c.isDigit = true := h2 c (by rw [he]; simp)
      have hcm : c ≠ '-' := by
        intro hcontra
        rw [hcontra] at hc
        simp [Char.isDigit] at hc
      simp only [List.cons_append, parseNumber, if_neg hcm]
      rw [← List.cons_append, ← he, parseNatNum_natChars _ _ h]
      show some (JsValue.num (n.natAbs : Int), rest) = some (JsValue.num n, rest)
      have hval : (n.natAbs : Int) = n := by omega
      rw [hval]

theorem escapeChars_append (a b : List Char) :
    escapeChars (a ++ b) = escapeChars a ++ escapeChars b := by
  induction a with
  | nil => rfl
  | cons c r ih => simp [escapeChars, ih]

theorem parseStringRest_escape (d : List Char) : ∀ (fuel : Nat) (rest : List Char),
    (escapeChars d).length + 1 ≤ fuel →
    parseStringRest fuel (escapeChars d ++ '"' :: rest) = some (d, rest) := by
  induction d with
  | nil =>
    intro fuel rest h
    cases fuel with
    | zero => omega
    | succ f => simp [escapeChars, parseStringRest]
  | cons c d ih =>
    intro fuel rest h
    have hcons : escapeChars (c :: d) = escChar c ++ escapeChars d := rfl
    rw [hcons] at h ⊢
    rw [List.length_append] at h
    unfold escChar at h ⊢
    split_ifs at h ⊢ with h1 h2 h3 h4 h5 h6 h7 h8
    · subst h1
      cases fuel with
      | zero => simp at h
      | succ f =>
        have harith : (escapeChars d).length + 1 ≤ f := by simp at h; omega
        calc parseStringRest (f + 1) (['\\', '"'] ++ escapeChars d ++ '"' :: rest)
            = Option.map (fun p => ('"' :: p.1, p.2))
                (parseStringRest f (escapeChars d ++ '"' :: rest)) := rfl
          _ = some ('"' :: d, rest) := by rw [ih f rest harith]; rfl
    · subst h2
      cases fuel with
      | zero => simp at h
      | succ f =>
        have harith : (escapeChars d).length + 1 ≤ f := by simp at h; omega
        calc parseStringRest (f + 1) (['\\', '\\'] ++ escapeChars d ++ '"' :: rest)
            = Option.map (fun p => ('\\' :: p.1, p.2))
                (parseStringRest f (escapeChars d ++ '"' :: rest)) := rfl
          _ = some ('\\' :: d, rest) := by rw [ih f rest harith]; rfl
    · subst h3
      cases fuel with
      | zero => simp at h
      | succ f =>
        have harith : (escapeChars d).length + 1 ≤ f := by simp at h; omega
        calc parseStringRest (f + 1) (['\\', 'b'] ++ escapeChars d ++ '"' :: rest)
            = Option.map (fun p => ('\x08' :: p.1, p.2))
                (parseStringRest f (escapeChars d ++ '"' :: rest)) := rfl
          _ = some ('\x08' :: d, rest) := by rw [ih f rest harith]; rfl
    · subst h4
      cases fuel with
      | zero => simp at h
      | succ f =>
        have harith : (escapeChars d).length + 1 ≤ f := by simp at h; omega
        calc parseStringRest (f + 1) (['\\', 'f'] ++ escapeChars d ++ '"' :: rest)
            = Option.map (fun p => ('\x0c' :: p.1, p.2))
                (parseStringRest f (escapeChars d ++ '"' :: rest)) := rfl
          _ = some ('\x0c' :: d, rest) := by rw [ih f rest harith]; rfl
    · subst h5
      cases fuel with
      | zero => simp at h
      | succ f =>
        have harith : (escapeChars d).length + 1 ≤ f := by simp at h; omega
        calc parseStringRest (f + 1) (['\\', 'n'] ++ escapeChars d ++ '"' :: rest)
            = Option.map (fun p => ('\n' :: p.1, p.2))
                (parseStringRest f (escapeChars d ++ '"' :: rest)) := rfl
          _ = some ('\n' :: d, rest) := by rw [ih f rest harith]; rfl
    · subst h6
      cases fuel with
      | zero => simp at h
      | succ f =>
        have harith : (escapeChars d).length + 1 ≤ f := by simp at h; omega
        calc parseStringRest (f + 1) (['\\', 'r'] ++ escapeChars d ++ '"' :: rest)
            = Option.map (fun p => ('\r' :: p.1, p.2))
                (parseStringRest f (escapeChars d ++ '"' :: rest)) := rfl
          _ = some ('\r' :: d, rest) := by rw [ih f rest harith]; rfl
    · subst h7
      cases fuel with
      | zero => simp at h
      | succ f =>
        have harith : (escapeChars d).length + 1 ≤ f := by simp at h; omega
        calc parseStringRest (f + 1) (['\\', 't'] ++ escapeChars d ++ '"' :: rest)
            = Option.map (fun p => ('\t' :: p.1, p.2))
                (parseStringRest f (escapeChars d ++ '"' :: rest)) := rfl
          _ = some ('\t' :: d, rest) := by rw [ih f rest harith]; rfl
    · cases fuel with
      | zero => simp at h
      | succ f =>
        have harith : (escapeChars d).length + 1 ≤ f := by simp at h; omega
        have hd1 : c.toNat / 16 < 16 := by omega
        have hd2 : c.toNat % 16 < 16 := by omega
        have hstep : parseStringRest (f + 1)
            (['\\', 'u', '0', '0', hexDigitChar (c.toNat / 16), hexDigitChar (c.toNat % 16)]
              ++ escapeChars d ++ '"' :: rest) =
            match hexVal '0', hexVal '0', hexVal (hexDigitChar (c.toNat / 16)),
                hexVal (hexDigitChar (c.toNat % 16)) with
            | some a, some b, some c2, some d2 =>
              (parseStringRest f (escapeChars d ++ '"' :: rest)).map fun p =>
                (Char.ofNat (((a * 16 + b) * 16 + c2) * 16 + d2) :: p.1, p.2)
            | _, _, _, _ => none := rfl
        rw [hstep, hexVal_hexDigitChar _ hd1, hexVal_hexDigitChar _ hd2]
        simp only [show hexVal '0' = some 0 from rfl]
        rw [ih f rest harith]
        have hcode : ((0 * 16 + 0) * 16 + c.toNat / 16) * 16 + c.toNat % 16 = c.toNat := by
          omega
        simp only [Option.map_some, hcode, Char.ofNat_toNat]
        rfl
    · cases fuel with
      | zero => simp at h
      | succ f =>
        have harith : (escapeChars d).length + 1 ≤ f := by simp at h; omega
        have hstep : parseStringRest (f + 1) ([c] ++ escapeChars d ++ '"' :: rest) =
            if c = '"' then some ([], escapeChars d ++ '"' :: rest)
            else if c = '\\' then
              match escapeChars d ++ '"' :: rest with
              | [] => none
              | e :: r2 =>
                if e = 'u' then
                  match r2 with
                  | h1 :: h2 :: h3 :: h4 :: r3 =>
                    match hexVal h1, hexVal h2, hexVal h3, hexVal h4 with
                    | some a, some b, some c2, some d2 =>
                      (parseStringRest f r3).map fun p =>
                        (Char.ofNat (((a * 16 + b) * 16 + c2) * 16 + d2) :: p.1, p.2)
                    | _, _, _, _ => none
                  | _ => none
                else
                  match escCharOf e with
                  | some ch => (parseStringRest f r2).map fun p => (ch :: p.1, p.2)
                  | none => none
            else if c.toNat < 32 then none
            else (parseStringRest f (escapeChars d ++ '"' :: rest)).map fun p =>
              (c :: p.1, p.2) := rfl
        rw [hstep, if_neg h1, if_neg h2, if_neg h8, ih f rest harith]
        rfl


theorem skipWs_ws_append_cons (w : List Char) (hw : wsOnly w = true) (c : Char)
    (hc : isJsonWs c = false) (t : List Char) : skipWs (w ++ c :: t) = c :: t := by
  rw [skipWs_ws_append _ _ hw, skipWs_not_ws _ _ hc]

theorem wsNotDigit (c : Char) (h : isJsonWs c = true) : c.isDigit = false := by
  simp only [isJsonWs, Bool.or_eq_true, decide_eq_true_eq] at h
  rcases h with ((rfl | rfl) | rfl) | rfl <;> decide

theorem noDigitHead_ws_close (closeWs : List Char) (c : Char) (rest : List Char)
    (h : wsOnly closeWs = true) (hc : c.isDigit = false) :
    noDigitHead (closeWs ++ c :: rest) = true := by
  cases closeWs with
  | nil => simp [noDigitHead, hc]
  | cons c2 r2 =>
    simp only [wsOnly, Bool.and_eq_true] at h
    simp [noDigitHead, wsNotDigit c2 h.1]

theorem digit_head_cases (c : Char) (h : c.isDigit = true) :
    c ≠ 'n' ∧ c ≠ 't' ∧ c ≠ 'f' ∧ c ≠ '"' ∧ c ≠ '[' ∧ c ≠ '{' ∧ isJsonWs c = false := by
  refine ⟨?_, ?_, ?_, ?_, ?_, ?_, ?_⟩
  · rintro rfl; exact absurd h (by decide)
  · rintro rfl; exact absurd h (by decide)
  · rintro rfl; exact absurd h (by decide)
  · rintro rfl; exact absurd h (by decide)
  · rintro rfl; exact absurd h (by decide)
  · rintro rfl; exact absurd h (by decide)
  · cases hws : isJsonWs c with
    | false => rfl
    | true =>
      rw [wsNotDigit c hws] at h
      exact Bool.noConfusion h

theorem serializeMembers_nil (gap : List Char) (sfuel : Nat) (ind sep colon : List Char) :
    serializeMembers gap sfuel ind sep colon [] = [] := by
  cases sfuel <;> rfl

theorem stringMk_data (s : String) : String.mk s.data = s := rfl

theorem wsOnly_append (a b : List Char) (ha : wsOnly a = true) (hb : wsOnly b = true) :
    wsOnly (a ++ b) = true := by
  induction a with
  | nil => exact hb
  | cons c r ih =>
    simp only [wsOnly, Bool.and_eq_true] at ha
    simp [wsOnly, ha.1, ih ha.2]

theorem goodHead_append (a b : List Char) (h : goodHead a = true) :
    goodHead (a ++ b) = true := by
  cases a with
  | nil => cases h
  | cons c r => simpa [goodHead] using h

theorem jsSize_pos (v : JsValue) : 1 ≤ jsSize v := by
  cases v <;> simp [jsSize]

theorem jsListSize_pos (l : List JsValue) : 1 ≤ jsListSize l := by
  cases l with
  | nil => simp [jsListSize]
  | cons x r => simp [jsListSize]; omega

theorem jsFieldsSize_pos (l : List (String × JsValue)) : 1 ≤ jsFieldsSize l := by
  cases l with
  | nil => simp [jsFieldsSize]
  | cons p r =>
    obtain ⟨k, v⟩ := p
    simp [jsFieldsSize]
    omega

theorem digit_ne_rbracket (c : Char) (h : c.isDigit = true) : c ≠ ']' := by
  rintro rfl
  exact absurd h (by decide)

theorem intChars_shape (n : Int) :
    ∃ ic ict, intChars n = ic :: ict ∧ (ic = '-' ∨ ic.isDigit = true) := by
  unfold intChars
  split_ifs with hneg
  · exact ⟨'-', natChars n.natAbs, rfl, Or.inl rfl⟩
  · obtain ⟨h1, h2, _, _⟩ := natChars_spec n.natAbs
    cases he : natChars n.natAbs with
    | nil => exact absurd he h1
    | cons c cs =>
      exact ⟨c, cs, rfl, Or.inr (h2 c (by rw [he]; simp))⟩

/-! ## Claim theorems -/

/-- C1: the claim "validateConfig never raises, including for configs
whose components hold null elements" fails on the code: iterating
`dashboard.components.forEach`, the property read `compObj.type`
throws a `TypeError` when the element is `null`.  This theorem
evaluates the embedded validator at the failing input. -/
theorem c1_validateConfig_throws_on_null_component :
    validateConfig (JsValue.obj [("dashboard", JsValue.obj [("title", JsValue.str "t"),
      ("components", JsValue.arr [JsValue.null])])]) = Except.error "TypeError" := by
  decide

/-- C2 counterexample: `"!!!"` is not valid JSON and no line of it
matches the flat `key: value` pattern, yet `parseConfig` returns the
empty object, not `null` — the fallback always returns its object. -/
theorem c2_counterexample :
    jsonParse "!!!" = none ∧
    lineEntry "!!!".data = none ∧
    parseConfig "!!!" = JsValue.obj [] ∧
    JsValue.obj [] ≠ JsValue.null := by
  refine ⟨rfl, rfl, rfl, by simp⟩

/-- C2 amended: `parseConfig` never raises (it is a total function of
its input), and it returns `null` exactly when the strict JSON parse
succeeds producing `null`; whenever the strict parse fails the
fallback returns an object — the empty object when no line matches —
never `null`. -/
theorem c2_parseConfig_null_characterization (input : String) :
    (parseConfig input = JsValue.null ↔ jsonParse input = some JsValue.null) ∧
    (jsonParse input = none → ∃ fields, parseConfig input = JsValue.obj fields) := by
  constructor
  · cases h : jsonParse input with
    | some v =>
      have hp : parseConfig input = v := by simp [parseConfig, h]
      rw [hp]
      simp
    | none =>
      have hp : parseConfig input = fallbackParse input := by simp [parseConfig, h]
      rw [hp]
      simp [fallbackParse]
  · intro h
    have hp : parseConfig input = fallbackParse input := by simp [parseConfig, h]
    rw [hp]
    exact ⟨_, rfl⟩

/-- Witness for C2's amended theorem at the concrete input `"!!!"`. -/
theorem c2_parseConfig_null_characterization_witness :
    ∃ fields, parseConfig "!!!" = JsValue.obj fields :=
  (c2_parseConfig_null_characterization "!!!").2 rfl

/-- C9: the strict parse succeeds on the text `"null"` and its result
is returned as-is, so `parseConfig "null"` is `null` even though both
parse attempts did not fail. -/
theorem c9_strict_parse_null_returned_as_is :
    jsonParse "null" = some JsValue.null ∧ parseConfig "null" = JsValue.null :=
  ⟨rfl, rfl⟩

/-- C8: both canonical generators produce configs that validate
cleanly: `isValidConfig` returns `true` (and in particular does not
throw) on `createDefaultConfig()` and `createSampleConfig()`. -/
theorem c8_generators_valid :
    isValidConfig (toJs createDefaultConfig) = Except.ok true ∧
    isValidConfig (toJs createSampleConfig) = Except.ok true := by
  constructor <;> decide

/-- C6 counterexample: with `title` present but the non-string `0`,
`validateConfig` emits the "required" error, not the "must be a
string" error the claim predicts for a present-but-non-string title
(`!dashboard.title` tests truthiness, not presence). -/
theorem c6_counterexample :
    validateConfig (JsValue.obj [("dashboard", JsValue.obj [("title", JsValue.num 0),
      ("components", JsValue.arr [])])]) =
      Except.ok [⟨"/dashboard/title", "Title is required", some Severity.error⟩] ∧
    typeOf (JsValue.num 0) ≠ "string" ∧
    ("Title is required" : String) ≠ "Title must be a string" := by
  refine ⟨by decide, by decide, by decide⟩

theorem componentsIter_all_ok (cs : List JsValue) : ∀ (k : Nat),
    (∀ (j : Nat) (c : JsValue), cs.get? j = some c → componentCheck (k + j) c = Except.ok []) →
    componentsIter k cs = Except.ok [] := by
  induction cs with
  | nil => intro k _; rfl
  | cons c rest ih =>
    intro k hall
    have h0 : componentCheck k c = Except.ok [] := by
      have := hall 0 c rfl
      simpa using this
    have hrest : componentsIter (k + 1) rest = Except.ok [] := by
      refine ih (k + 1) ?_
      intro j c2 hj
      have := hall (j + 1) c2 (by simpa using hj)
      have harith : k + (j + 1) = k + 1 + j := by omega
      rw [harith] at this
      exact this
    unfold componentsIter
    rw [h0, hrest]
    rfl

theorem componentsIter_one_error (cs : List JsValue) : ∀ (k i : Nat) (bad : JsValue)
    (e : ValidationError),
    cs.get? i = some bad →
    componentCheck (k + i) bad = Except.ok [e] →
    (∀ (j : Nat) (c : JsValue), j ≠ i → cs.get? j = some c →
      componentCheck (k + j) c = Except.ok []) →
    componentsIter k cs = Except.ok [e] := by
  induction cs with
  | nil =>
    intro k i bad e hi
    cases hi
  | cons c rest ih =>
    intro k i bad e hi hbad hothers
    cases i with
    | zero =>
      have hc : c = bad := by simpa using hi
      subst hc
      have h0 : componentCheck k c = Except.ok [e] := by simpa using hbad
      have hrest : componentsIter (k + 1) rest = Except.ok [] := by
        refine componentsIter_all_ok rest (k + 1) ?_
        intro j c2 hj
        have := hothers (j + 1) c2 (by omega) (by simpa using hj)
        have harith : k + (j + 1) = k + 1 + j := by omega
        rw [harith] at this
        exact this
      unfold componentsIter
      rw [h0, hrest]
      rfl
    | succ i2 =>
      have h0 : componentCheck k c = Except.ok [] := by
        have := hothers 0 c (by omega) rfl
        simpa using this
      have hrest : componentsIter (k + 1) rest = Except.ok [e] := by
        refine ih (k + 1) i2 bad e (by simpa using hi) ?_ ?_
        · have harith : k + 1 + i2 = k + (i2 + 1) := by omega
          rw [harith]
          exact hbad
        · intro j c2 hj hc2
          have := hothers (j + 1) c2 (by omega) (by simpa using hc2)
          have harith : k + (j + 1) = k + 1 + j := by omega
          rw [harith] at this
          exact this
      unfold componentsIter
      rw [h0, hrest]
      rfl

/-- C7: in an otherwise-valid config (object root, object dashboard,
clean title/layout/dataSources checks, components an array) whose
components sequence holds at index `i` an element with an unrecognized
string `type`, `validateConfig` yields exactly one error, at
`/dashboard/components/i/type`, whose message names the offending
value; and any component whose `type` is one of the recognized kinds
contributes no error at all. -/
theorem c7_unknown_component_kind
    (v : JsValue) (cs : List JsValue) (i : Nat) (bad : JsValue) (t : String)
    (hT : truthy v = true) (hO : typeOf v = "object")
    (hdT : truthy (getOwn v "dashboard") = true)
    (hdO : typeOf (getOwn v "dashboard") = "object")
    (htitle : titleCheck (getOwn v "dashboard") = [])
    (hlayout : layoutCheck (getOwn v "dashboard") = [])
    (hcomps : getOwn (getOwn v "dashboard") "components" = JsValue.arr cs)
    (hi : cs.get? i = some bad)
    (hbad : getProp bad "type" = Except.ok (JsValue.str t))
    (ht1 : t ≠ "")
    (ht2 : t ∉ COMPONENT_TYPES)
    (hothers : ∀ (j : Nat) (c : JsValue), j ≠ i → cs.get? j = some c →
      componentCheck j c = Except.ok [])
    (hds : dataSourcesCheck v = Except.ok []) :
    validateConfig v = Except.ok
      [⟨componentPath i, "Invalid component type: " ++ t, some Severity.error⟩] ∧
    (∀ (j : Nat) (c : JsValue) (t2 : String), getProp c "type" = Except.ok (JsValue.str t2) →
      t2 ∈ COMPONENT_TYPES → componentCheck j c = Except.ok []) := by
  constructor
  · have hbadCheck : componentCheck i bad = Except.ok
        [⟨componentPath i, "Invalid component type: " ++ t, some Severity.error⟩] := by
      unfold componentCheck
      rw [hbad]
      have htr : truthy (JsValue.str t) = true := by simp [truthy, ht1]
      have hin : includesStr COMPONENT_TYPES (JsValue.str t) = false := by
        simp [includesStr, ht2]
      simp [Bind.bind, Except.bind, htr, hin, jsStringOf, pure, Except.pure]
    have hiter : componentsIter 0 cs = Except.ok
        [⟨componentPath i, "Invalid component type: " ++ t, some Severity.error⟩] := by
      refine componentsIter_one_error cs 0 i bad _ hi ?_ ?_
      · simpa using hbadCheck
      · intro j c hj hc
        simpa using hothers j c hj hc
    have hce : componentsCheck (getOwn v "dashboard") = Except.ok
        [⟨componentPath i, "Invalid component type: " ++ t, some Severity.error⟩] := by
      simp only [componentsCheck, hcomps]
      simpa [truthy] using hiter
    have := validateConfig_main v hT hO hdT hdO hce hds
    rw [htitle, hlayout] at this
    simpa using this
  · intro j c t2 h1 h2
    have ht2ne : t2 ≠ "" := by
      rintro rfl
      simp [COMPONENT_TYPES] at h2
    unfold componentCheck
    rw [h1]
    have htr : truthy (JsValue.str t2) = true := by simp [truthy, ht2ne]
    have hin : includesStr COMPONENT_TYPES (JsValue.str t2) = true := by
      simp [includesStr, h2]
    simp [Bind.bind, Except.bind, htr, hin, pure, Except.pure]

/-- Witness for C7 at the spec's own test vector: one `bogus-chart`
component under a valid dashboard, and a recognized `table` kind. -/
theorem c7_unknown_component_kind_witness :
    validateConfig (JsValue.obj [("dashboard", JsValue.obj
      [("title", JsValue.str "T"),
       ("components", JsValue.arr
         [JsValue.obj [("type", JsValue.str "bogus-chart"), ("config", JsValue.obj [])]])])]) =
      Except.ok [⟨componentPath 0, "Invalid component type: bogus-chart", some Severity.error⟩] ∧
    componentCheck 7 (JsValue.obj [("type", JsValue.str "table"),
      ("config", JsValue.obj [])]) = Except.ok [] := by
  constructor
  · exact (c7_unknown_component_kind
      (JsValue.obj [("dashboard", JsValue.obj
        [("title", JsValue.str "T"),
         ("components", JsValue.arr
           [JsValue.obj [("type", JsValue.str "bogus-chart"), ("config", JsValue.obj [])]])])])
      [JsValue.obj [("type", JsValue.str "bogus-chart"), ("config", JsValue.obj [])]]
      0
      (JsValue.obj [("type", JsValue.str "bogus-chart"), ("config", JsValue.obj [])])
      "bogus-chart"
      rfl rfl rfl rfl rfl rfl rfl rfl rfl (by decide) (by decide)
      (by
        intro j c hj hc
        cases j with
        | zero => exact absurd rfl hj
        | succ j2 => simp at hc)
      rfl).1
  · exact (c7_unknown_component_kind
      (JsValue.obj [("dashboard", JsValue.obj
        [("title", JsValue.str "T"),
         ("components", JsValue.arr
           [JsValue.obj [("type", JsValue.str "bogus-chart"), ("config", JsValue.obj [])]])])])
      [JsValue.obj [("type", JsValue.str "bogus-chart"), ("config", JsValue.obj [])]]
      0
      (JsValue.obj [("type", JsValue.str "bogus-chart"), ("config", JsValue.obj [])])
      "bogus-chart"
      rfl rfl rfl rfl rfl rfl rfl rfl rfl (by decide) (by decide)
      (by
        intro j c hj hc
        cases j with
        | zero => exact absurd rfl hj
        | succ j2 => simp at hc)
      rfl).2 7
      (JsValue.obj [("type", JsValue.str "table"), ("config", JsValue.obj [])])
      "table" rfl (by decide)

/-- C6 amended: at most one error at `/dashboard/title` ever appears
in a `validateConfig` result, and the two title checks split on
truthiness, not presence: a falsy title (absent, or a falsy present
value such as `0`, `false`, `null` or the empty string) fires
"required"; a truthy non-string fires "must be a string"; a truthy
string fires nothing.  Never both. -/
theorem c6_title_check_semantics (v : JsValue) (es : List ValidationError) (d : JsValue) :
    (validateConfig v = Except.ok es →
      (es.filter fun e => e.path = "/dashboard/title").length ≤ 1) ∧
    (truthy (getOwn d "title") = false →
      titleCheck d = [⟨"/dashboard/title", "Title is required", some Severity.error⟩]) ∧
    (truthy (getOwn d "title") = true → typeOf (getOwn d "title") ≠ "string" →
      titleCheck d = [⟨"/dashboard/title", "Title must be a string", some Severity.error⟩]) ∧
    (truthy (getOwn d "title") = true → typeOf (getOwn d "title") = "string" →
      titleCheck d = []) := by
  refine ⟨?_, ?_, ?_, ?_⟩
  · intro h
    simp only [validateConfig] at h
    split at h
    · injection h with h'
      subst h'
      decide
    · split at h
      · injection h with h'
        subst h'
        decide
      · split at h
        · injection h with h'
          subst h'
          decide
        · cases hce : componentsCheck (getOwn v "dashboard") with
          | error e1 =>
            rw [hce] at h
            simp [Bind.bind, Except.bind] at h
          | ok ce =>
            cases hde : dataSourcesCheck v with
            | error e2 =>
              rw [hce, hde] at h
              simp [Bind.bind, Except.bind] at h
            | ok de =>
              rw [hce, hde] at h
              simp only [Bind.bind, Except.bind] at h
              injection h with h'
              subst h'
              rw [List.filter_append, List.filter_append, List.filter_append]
              have h2 := layoutCheck_title_free (getOwn v "dashboard")
              have h3 : List.filter (fun e => decide (e.path = "/dashboard/title")) ce = [] := by
                rw [List.filter_eq_nil_iff]
                intro e he
                simp only [decide_eq_true_eq]
                exact componentsCheck_title_free _ _ hce e he
              have h4 : List.filter (fun e => decide (e.path = "/dashboard/title")) de = [] := by
                rw [List.filter_eq_nil_iff]
                intro e he
                simp only [decide_eq_true_eq]
                exact dataSourcesCheck_title_free _ _ hde e he
              have h1 := titleCheck_filter_le_one (getOwn v "dashboard")
              simp only [h2, h3, h4, List.length_append, List.length_nil]
              omega
  · intro h
    simp [titleCheck, h]
  · intro h1 h2
    simp [titleCheck, h1, bne_iff_ne, h2]
  · intro h1 h2
    simp [titleCheck, h1, h2]

/-- Witness for C6's amended theorem: a truthy string title passes
both checks, and the short-circuited root error carries no
`/dashboard/title` path. -/
theorem c6_title_check_semantics_witness :
    titleCheck (JsValue.obj [("title", JsValue.str "x")]) = [] ∧
    (([rootError] : List ValidationError).filter fun e => e.path = "/dashboard/title").length ≤ 1 :=
  ⟨(c6_title_check_semantics JsValue.null [rootError]
      (JsValue.obj [("title", JsValue.str "x")])).2.2.2 (by decide) (by decide),
   (c6_title_check_semantics JsValue.null [rootError] (JsValue.obj [])).1 (by decide)⟩



/-- C3 counterexample: an override whose `dataSources` is the
explicitly empty sequence does NOT keep the base's non-empty
`dataSources` — an empty JavaScript array is truthy, so
`override.dataSources || base.dataSources` takes the empty array. -/
theorem c3_counterexample :
    c3Base.dataSources = some [⟨"src-1", none, .rest, none, none, none, none, none⟩] ∧
    c3Override.dataSources = some [] ∧
    (mergeConfigs c3Base c3Override).dataSources = some [] ∧
    (mergeConfigs c3Base c3Override).dataSources ≠ c3Base.dataSources := by
  refine ⟨rfl, rfl, rfl, by decide⟩

/-- C3 amended: any supplied override `dataSources` sequence — empty
included — replaces the base's wholesale; only an absent override
`dataSources` falls back to the base.  An override supplying a
dashboard (hence a components sequence, even empty) entirely replaces
the base's components. -/
theorem c3_merge_sequence_replacement (base : DashboardConfig)
    (override : PartialDashboardConfig) :
    (∀ l, override.dataSources = some l →
      (mergeConfigs base override).dataSources = some l) ∧
    (override.dataSources = none →
      (mergeConfigs base override).dataSources = base.dataSources) ∧
    (∀ d, override.dashboard = some d →
      (mergeConfigs base override).dashboard.components = d.components) := by
  refine ⟨?_, ?_, ?_⟩
  · intro l hl
    simp [mergeConfigs, hl]
  · intro h
    simp [mergeConfigs, h]
  · intro d hd
    simp [mergeConfigs, hd]

/-- Witness for C3's amended theorem at a concrete base/override. -/
theorem c3_merge_sequence_replacement_witness :
    (mergeConfigs c3Base c3Override).dataSources = some [] :=
  (c3_merge_sequence_replacement c3Base c3Override).1 [] rfl

/-- C10: `mergeConfigs` always materializes `settings` as an object
(the key-wise merge of both sides, empty when neither supplies one),
so merging a base without a `settings` field with any override — the
empty override included — yields a result different from the base. -/
theorem c10_merge_materializes_settings (base : DashboardConfig)
    (override : PartialDashboardConfig) :
    ((mergeConfigs base override).settings).isSome = true ∧
    (base.settings = none → override.settings = none →
      (mergeConfigs base override).settings = some ⟨none, none, none, none, none⟩) ∧
    (base.settings = none → mergeConfigs base override ≠ base) := by
  refine ⟨rfl, ?_, ?_⟩
  · intro hb ho
    simp [mergeConfigs, mergeSettings, hb, ho, orElseO]
  · intro hb heq
    have h2 := congrArg DashboardConfig.settings heq
    rw [hb] at h2
    simp [mergeConfigs] at h2

theorem getKey_setKey (fields : List (String × String)) (k v : String) :
    getKey (setKey fields k v) k = some v := by
  induction fields with
  | nil => simp [setKey, getKey]
  | cons p rest ih =>
    obtain ⟨k2, w⟩ := p
    by_cases h : k2 = k
    · simp [setKey, getKey, h]
    · simp [setKey, getKey, h, ih]

theorem getKey_setKey_ne (fields : List (String × String)) (k k2 v : String)
    (h : k2 ≠ k) : getKey (setKey fields k2 v) k = getKey fields k := by
  induction fields with
  | nil => simp [setKey, getKey, h]
  | cons p rest ih =>
    obtain ⟨k3, w⟩ := p
    by_cases h3 : k3 = k2
    · subst h3
      simp [setKey, getKey, h]
    · by_cases hk : k3 = k
      · subst hk
        simp [setKey, getKey, h3]
      · simp [setKey, getKey, h3, hk, ih]

/-- C5 counterexample: on the line `key: "a"b"`, the fallback stores
the value `ab` — the `replace(/['"]/g, '')` deletes every quote
character, so the interior quote the claim preserves is gone (one
enclosing layer stripped would give `a"b`). -/
theorem c5_counterexample :
    jsonParse "key: \"a\"b\"" = none ∧
    parseConfig "key: \"a\"b\"" = JsValue.obj [("key", JsValue.str "ab")] ∧
    ("ab" : String) ≠ "a\"b" := by
  refine ⟨rfl, rfl, by decide⟩

/-- C5 amended: the fallback scan removes every quote character from a
matched value (not one enclosing layer), drops entries whose stripped
value is empty, and builds a flat string-valued mapping in which, per
key, the last line that actually stores a value wins.  The first
conjunct states last-write-wins as a fold invariant; the remaining two
evaluate the quote-stripping and the empty-value drop (the second line
of the last input stores nothing, so the earlier value survives). -/
theorem c5_fallback_last_write_wins :
    (∀ (lines : List (List Char)) (init : List (String × String)) (k : String),
      getKey (lines.foldl processLine init) k =
        lines.foldl
          (fun acc line =>
            match lineEntry line with
            | some (k2, v) => if k2 = k then some v else acc
            | none => acc)
          (getKey init k)) ∧
    parseConfig "k: 'a'\"b\"c" = JsValue.obj [("k", JsValue.str "abc")] ∧
    parseConfig "k: a\nk: \"\"" = JsValue.obj [("k", JsValue.str "a")] := by
  refine ⟨?_, rfl, rfl⟩
  intro lines
  induction lines with
  | nil => intro init k; rfl
  | cons l ls ih =>
    intro init k
    simp only [List.foldl_cons]
    rw [ih]
    congr 1
    unfold processLine
    cases h : lineEntry l with
    | none => rfl
    | some p =>
      obtain ⟨k2, v⟩ := p
      by_cases hk : k2 = k
      · subst hk
        simp [getKey_setKey]
      · simp [hk, getKey_setKey_ne _ _ _ _ hk]


/-- Witness for C10 at a concrete base with no settings and the empty
override. -/
theorem c10_merge_materializes_settings_witness :
    (mergeConfigs c10Base ⟨none, none, none⟩).settings = some ⟨none, none, none, none, none⟩ ∧
    mergeConfigs c10Base ⟨none, none, none⟩ ≠ c10Base :=
  ⟨(c10_merge_materializes_settings c10Base ⟨none, none, none⟩).2.1 rfl rfl,
   (c10_merge_materializes_settings c10Base ⟨none, none, none⟩).2.2 rfl⟩

/-- Serialization/parsing round trip: any JSON-safe value serialized with a
whitespace-only gap parses back to itself, for sufficient parser fuel, with
arbitrary leading whitespace and a digit-free remainder; joint statement with
the item-list and member-list conjuncts needed for the induction. -/
theorem roundtrip_main (gap : List Char) (hgap : wsOnly gap = true) :
    ∀ sfuel : Nat,
    (∀ (ind : List Char) (v : JsValue),
      jsonSafe v = true → jsSize v ≤ sfuel → wsOnly ind = true →
      ∃ out, serializeVal gap sfuel ind v = some out ∧
        goodHead out = true ∧
        ∀ (pfuel : Nat) (w rest : List Char),
          2 * out.length ≤ pfuel → wsOnly w = true → noDigitHead rest = true →
          parseVal pfuel (w ++ out ++ rest) = some (v, rest)) ∧
    (∀ (ind sep : List Char) (xs : List JsValue),
      jsonSafeList xs = true → jsListSize xs ≤ sfuel → wsOnly ind = true →
      xs ≠ [] →
      (∃ sepTail, sep = ',' :: sepTail ∧ wsOnly sepTail = true) →
      goodHead (serializeItems gap sfuel ind sep xs) = true ∧
      ∀ (pfuel : Nat) (w closeWs rest : List Char),
        2 * (serializeItems gap sfuel ind sep xs).length + 1 ≤ pfuel →
        wsOnly w = true → wsOnly closeWs = true →
        parseItems pfuel (w ++ serializeItems gap sfuel ind sep xs ++ closeWs ++ ']' :: rest) =
          some (xs, rest)) ∧
    (∀ (ind sep colon : List Char) (fs : List (String × JsValue)),
      jsonSafeFields fs = true → jsFieldsSize fs ≤ sfuel → wsOnly ind = true →
      fs ≠ [] →
      (∃ sepTail, sep = ',' :: sepTail ∧ wsOnly sepTail = true) →
      (∃ colonTail, colon = ':' :: colonTail ∧ wsOnly colonTail = true) →
      (∃ mtail, serializeMembers gap sfuel ind sep colon fs = '"' :: mtail) ∧
      ∀ (pfuel : Nat) (w closeWs rest : List Char),
        2 * (serializeMembers gap sfuel ind sep colon fs).length + 1 ≤ pfuel →
        wsOnly w = true → wsOnly closeWs = true →
        parseMembers pfuel
            (w ++ serializeMembers gap sfuel ind sep colon fs ++ closeWs ++ '}' :: rest) =
          some (fs, rest)) := by
  intro sfuel
  induction sfuel with
  | zero =>
    refine ⟨?_, ?_, ?_⟩
    · intro ind v _ hsize _
      have := jsSize_pos v
      omega
    · intro ind sep xs _ hsize _ _ _
      have := jsListSize_pos xs
      omega
    · intro ind sep colon fs _ hsize _ _ _ _
      have := jsFieldsSize_pos fs
      omega
  | succ sf ih =>
    obtain ⟨ihV, ihI, ihM⟩ := ih
    refine ⟨?_, ?_, ?_⟩
    · -- values
      intro ind v hsafe hsize hind
      cases v with
      | undef => simp [jsonSafe] at hsafe
      | null =>
        refine ⟨['n', 'u', 'l', 'l'], rfl, by decide, ?_⟩
        intro pfuel w rest hpf hw hrest
        cases pfuel with
        | zero => simp at hpf
        | succ pf =>
          have hskip : skipWs (w ++ 'n' :: 'u' :: 'l' :: 'l' :: rest) =
              'n' :: 'u' :: 'l' :: 'l' :: rest :=
            skipWs_ws_append_cons w hw 'n' (by decide) _
          simp [parseVal, hskip, litRest]
      | bool b =>
        cases b with
        | false =>
          refine ⟨['f', 'a', 'l', 's', 'e'], rfl, by decide, ?_⟩
          intro pfuel w rest hpf hw hrest
          cases pfuel with
          | zero => simp at hpf
          | succ pf =>
            have hskip : skipWs (w ++ 'f' :: 'a' :: 'l' :: 's' :: 'e' :: rest) =
                'f' :: 'a' :: 'l' :: 's' :: 'e' :: rest :=
              skipWs_ws_append_cons w hw 'f' (by decide) _
            simp [parseVal, hskip, litRest]
        | true =>
          refine ⟨['t', 'r', 'u', 'e'], rfl, by decide, ?_⟩
          intro pfuel w rest hpf hw hrest
          cases pfuel with
          | zero => simp at hpf
          | succ pf =>
            have hskip : skipWs (w ++ 't' :: 'r' :: 'u' :: 'e' :: rest) =
                't' :: 'r' :: 'u' :: 'e' :: rest :=
              skipWs_ws_append_cons w hw 't' (by decide) _
            simp [parseVal, hskip, litRest]
      | num n =>
        obtain ⟨ic, ict, hic, hicd⟩ := intChars_shape n
        have hicws : isJsonWs ic = false := by
          rcases hicd with rfl | hd
          · decide
          · exact (digit_head_cases ic hd).2.2.2.2.2.2
        refine ⟨intChars n, rfl, ?_, ?_⟩
        · rw [hic]
          rcases hicd with rfl | hd
          · rfl
          · simp [goodHead, hicws, bne_iff_ne, digit_ne_rbracket ic hd]
        · intro pfuel w rest hpf hw hrest
          cases pfuel with
          | zero =>
            rw [hic] at hpf
            simp at hpf
          | succ pf =>
            have hskip : skipWs ((w ++ intChars n) ++ rest) = ic :: (ict ++ rest) := by
              rw [List.append_assoc, hic]
              exact skipWs_ws_append_cons w hw ic hicws _
            have hdisp : ic ≠ 'n' ∧ ic ≠ 't' ∧ ic ≠ 'f' ∧ ic ≠ '"' ∧ ic ≠ '[' ∧ ic ≠ '{' := by
              rcases hicd with rfl | hd
              · refine ⟨by decide, by decide, by decide, by decide, by decide, by decide⟩
              · exact ⟨(digit_head_cases ic hd).1, (digit_head_cases ic hd).2.1,
                  (digit_head_cases ic hd).2.2.1, (digit_head_cases ic hd).2.2.2.1,
                  (digit_head_cases ic hd).2.2.2.2.1, (digit_head_cases ic hd).2.2.2.2.2.1⟩
            obtain ⟨hd1, hd2, hd3, hd4, hd5, hd6⟩ := hdisp
            simp only [parseVal, hskip, if_neg hd1, if_neg hd2, if_neg hd3, if_neg hd4,
              if_neg hd5, if_neg hd6]
            rw [show ic :: (ict ++ rest) = (ic :: ict) ++ rest from rfl, ← hic]
            exact parseNumber_intChars n rest hrest
      | str s =>
        refine ⟨quoteChars s.data, rfl, rfl, ?_⟩
        intro pfuel w rest hpf hw hrest
        cases pfuel with
        | zero => simp [quoteChars] at hpf
        | succ pf =>
          have hshape : quoteChars s.data ++ rest =
              '"' :: (escapeChars s.data ++ '"' :: rest) := by
            simp [quoteChars]
          have hskip : skipWs ((w ++ quoteChars s.data) ++ rest) =
              '"' :: (escapeChars s.data ++ '"' :: rest) := by
            rw [List.append_assoc, hshape]
            exact skipWs_ws_append_cons w hw '"' (by decide) _
          have hfuel : (escapeChars s.data).length + 1 ≤
              (escapeChars s.data ++ '"' :: rest).length + 1 := by
            simp [List.length_append]
          simp only [parseVal, hskip, reduceIte]
          rw [parseStringRest_escape s.data ((escapeChars s.data ++ '"' :: rest).length + 1)
            rest hfuel]
          rfl
      | arr xs =>
        cases xs with
        | nil =>
          refine ⟨['[', ']'], rfl, rfl, ?_⟩
          intro pfuel w rest hpf hw hrest
          cases pfuel with
          | zero => simp at hpf
          | succ pf =>
            have hskip : skipWs (w ++ '[' :: ']' :: rest) = '[' :: ']' :: rest :=
              skipWs_ws_append_cons w hw '[' (by decide) _
            simp [parseVal, hskip, skipWs_not_ws ']' rest (by decide)]
        | cons x xs2 =>
          have hsafeL : jsonSafeList (x :: xs2) = true := by
            simpa [jsonSafe] using hsafe
          have hsizeL : jsListSize (x :: xs2) ≤ sf := by
            simp only [jsSize] at hsize
            omega
          by_cases hg : gap = []
          · subst hg
            have hindg : wsOnly (ind ++ ([] : List Char)) = true := by simpa using hind
            obtain ⟨hbgood, hbparse⟩ :=
              ihI (ind ++ []) [','] (x :: xs2) hsafeL hsizeL hindg (by simp) ⟨[], rfl, rfl⟩
            refine ⟨'[' :: serializeItems [] sf (ind ++ []) [','] (x :: xs2) ++ [']'],
              rfl, rfl, ?_⟩
            intro pfuel w rest hpf hw hrest
            cases pfuel with
            | zero => simp at hpf
            | succ pf =>
              cases hb : serializeItems [] sf (ind ++ []) [','] (x :: xs2) with
              | nil => rw [hb] at hbgood; cases hbgood
              | cons bh bt =>
                rw [hb] at hbparse hpf
                have hbh : isJsonWs bh = false ∧ bh ≠ ']' := by
                  rw [hb] at hbgood
                  simpa [goodHead, bne_iff_ne] using hbgood
                have hgoal : (w ++ ('[' :: (bh :: bt) ++ [']'])) ++ rest =
                    w ++ '[' :: (bh :: (bt ++ ']' :: rest)) := by simp
                rw [hgoal]
                have hskip1 : skipWs (w ++ '[' :: (bh :: (bt ++ ']' :: rest))) =
                    '[' :: (bh :: (bt ++ ']' :: rest)) :=
                  skipWs_ws_append_cons w hw '[' (by decide) _
                have hskip2 : skipWs (bh :: (bt ++ ']' :: rest)) = bh :: (bt ++ ']' :: rest) :=
                  skipWs_not_ws _ _ hbh.1
                have hcall := hbparse pf [] [] rest
                  (by simp only [List.length_cons, List.length_append, List.length_nil] at hpf ⊢; omega) rfl rfl
                simp only [List.nil_append, List.append_nil] at hcall
                simp only [parseVal, hskip1, hskip2, reduceIte, if_neg hbh.2]
                rw [show (bh :: bt) ++ ']' :: rest = bh :: (bt ++ ']' :: rest) from rfl] at hcall
                rw [hcall]
                rfl
          · have hindg : wsOnly (ind ++ gap) = true := wsOnly_append ind gap hind hgap
            have hsepT : wsOnly ('\n' :: (ind ++ gap)) = true := by
              simp [wsOnly, isJsonWs, hindg]
            obtain ⟨hbgood, hbparse⟩ :=
              ihI (ind ++ gap) (',' :: '\n' :: (ind ++ gap)) (x :: xs2) hsafeL hsizeL hindg
                (by simp) ⟨'\n' :: (ind ++ gap), rfl, hsepT⟩
            have hser : serializeVal gap (sf + 1) ind (JsValue.arr (x :: xs2)) =
                some ('[' :: '\n' :: (ind ++ gap) ++
                  serializeItems gap sf (ind ++ gap) (',' :: '\n' :: (ind ++ gap)) (x :: xs2) ++
                  '\n' :: ind ++ [']']) := by
              simp only [serializeVal, if_neg hg]
            refine ⟨_, hser, rfl, ?_⟩
            intro pfuel w rest hpf hw hrest
            cases pfuel with
            | zero => simp at hpf
            | succ pf =>
              cases hb : serializeItems gap sf (ind ++ gap) (',' :: '\n' :: (ind ++ gap))
                  (x :: xs2) with
              | nil => rw [hb] at hbgood; cases hbgood
              | cons bh bt =>
                rw [hb] at hbparse hpf
                have hbh : isJsonWs bh = false ∧ bh ≠ ']' := by
                  rw [hb] at hbgood
                  simpa [goodHead, bne_iff_ne] using hbgood
                have hgoal : (w ++ ('[' :: '\n' :: (ind ++ gap) ++ (bh :: bt) ++
                    '\n' :: ind ++ [']'])) ++ rest =
                    w ++ '[' :: (('\n' :: (ind ++ gap)) ++
                      (bh :: (bt ++ ('\n' :: ind) ++ ']' :: rest))) := by simp
                rw [hgoal]
                have hskip1 : skipWs (w ++ '[' :: (('\n' :: (ind ++ gap)) ++
                    (bh :: (bt ++ ('\n' :: ind) ++ ']' :: rest)))) =
                    '[' :: (('\n' :: (ind ++ gap)) ++
                      (bh :: (bt ++ ('\n' :: ind) ++ ']' :: rest))) :=
                  skipWs_ws_append_cons w hw '[' (by decide) _
                have hskip2 : skipWs (('\n' :: (ind ++ gap)) ++
                    (bh :: (bt ++ ('\n' :: ind) ++ ']' :: rest))) =
                    bh :: (bt ++ ('\n' :: ind) ++ ']' :: rest) :=
                  skipWs_ws_append_cons _ hsepT bh hbh.1 _
                have hcall := hbparse pf [] ('\n' :: ind) rest
                  (by simp only [List.length_cons, List.length_append, List.length_nil]
                        at hpf ⊢
                      omega)
                  rfl (by simp [wsOnly, isJsonWs, hind])
                simp only [List.nil_append] at hcall
                simp only [parseVal, hskip1, hskip2, reduceIte, if_neg hbh.2]
                rw [show (bh :: bt) ++ ('\n' :: ind) ++ ']' :: rest =
                  bh :: (bt ++ ('\n' :: ind) ++ ']' :: rest) from rfl] at hcall
                rw [hcall]
                rfl
      | obj fs =>
        cases fs with
        | nil =>
          refine ⟨['\x7b', '\x7d'], by simp [serializeVal, serializeMembers_nil], rfl, ?_⟩
          intro pfuel w rest hpf hw hrest
          cases pfuel with
          | zero => simp at hpf
          | succ pf =>
            have hskip : skipWs (w ++ '\x7b' :: '\x7d' :: rest) = '\x7b' :: '\x7d' :: rest :=
              skipWs_ws_append_cons w hw '\x7b' (by decide) _
            simp [parseVal, hskip, skipWs_not_ws '\x7d' rest (by decide)]
        | cons kv fs2 =>
          have hsafeF : jsonSafeFields (kv :: fs2) = true := by
            simp only [jsonSafe, Bool.and_eq_true] at hsafe
            exact hsafe.2
          have hsizeF : jsFieldsSize (kv :: fs2) ≤ sf := by
            simp only [jsSize] at hsize
            omega
          by_cases hg : gap = []
          · subst hg
            have hindg : wsOnly (ind ++ ([] : List Char)) = true := by simpa using hind
            obtain ⟨⟨mtail, hmt⟩, hbparse⟩ :=
              ihM (ind ++ []) [','] [':'] (kv :: fs2) hsafeF hsizeF hindg (by simp)
                ⟨[], rfl, rfl⟩ ⟨[], rfl, rfl⟩
            have hser : serializeVal [] (sf + 1) ind (JsValue.obj (kv :: fs2)) =
                some ('\x7b' :: serializeMembers [] sf (ind ++ []) [','] [':'] (kv :: fs2) ++
                  ['\x7d']) := by
              simp only [serializeVal, reduceIte]
              rw [hmt]
              simp
            refine ⟨_, hser, by rw [hmt]; rfl, ?_⟩
            intro pfuel w rest hpf hw hrest
            rw [hmt] at hpf ⊢
            cases pfuel with
            | zero => simp at hpf
            | succ pf =>
              rw [hmt] at hbparse
              have hgoal : (w ++ ('\x7b' :: ('"' :: mtail) ++ ['\x7d'])) ++ rest =
                  w ++ '\x7b' :: ('"' :: (mtail ++ '\x7d' :: rest)) := by simp
              rw [hgoal]
              have hskip1 : skipWs (w ++ '\x7b' :: ('"' :: (mtail ++ '\x7d' :: rest))) =
                  '\x7b' :: ('"' :: (mtail ++ '\x7d' :: rest)) :=
                skipWs_ws_append_cons w hw '\x7b' (by decide) _
              have hskip2 : skipWs ('"' :: (mtail ++ '\x7d' :: rest)) =
                  '"' :: (mtail ++ '\x7d' :: rest) :=
                skipWs_not_ws _ _ (by decide)
              have hcall := hbparse pf [] [] rest
                (by simp only [List.length_cons, List.length_append, List.length_nil]
                      at hpf ⊢
                    omega)
                rfl rfl
              simp only [List.nil_append, List.append_nil] at hcall
              simp only [parseVal, hskip1, hskip2, reduceIte]
              rw [show ('"' :: mtail) ++ '\x7d' :: rest =
                '"' :: (mtail ++ '\x7d' :: rest) from rfl] at hcall
              rw [hcall]
              rfl
          · have hindg : wsOnly (ind ++ gap) = true := wsOnly_append ind gap hind hgap
            have hsepT : wsOnly ('\n' :: (ind ++ gap)) = true := by
              simp [wsOnly, isJsonWs, hindg]
            obtain ⟨⟨mtail, hmt⟩, hbparse⟩ :=
              ihM (ind ++ gap) (',' :: '\n' :: (ind ++ gap)) [':', ' '] (kv :: fs2)
                hsafeF hsizeF hindg (by simp)
                ⟨'\n' :: (ind ++ gap), rfl, hsepT⟩ ⟨[' '], rfl, rfl⟩
            have hser : serializeVal gap (sf + 1) ind (JsValue.obj (kv :: fs2)) =
                some ('\x7b' :: '\n' :: (ind ++ gap) ++
                  serializeMembers gap sf (ind ++ gap) (',' :: '\n' :: (ind ++ gap)) [':', ' ']
                    (kv :: fs2) ++
                  '\n' :: ind ++ ['\x7d']) := by
              simp only [serializeVal, if_neg hg]
              rw [hmt]
              simp
            refine ⟨_, hser, rfl, ?_⟩
            intro pfuel w rest hpf hw hrest
            rw [hmt] at hpf ⊢
            cases pfuel with
            | zero => simp at hpf
            | succ pf =>
              rw [hmt] at hbparse
              have hgoal : (w ++ ('\x7b' :: '\n' :: (ind ++ gap) ++ ('"' :: mtail) ++
                  '\n' :: ind ++ ['\x7d'])) ++ rest =
                  w ++ '\x7b' :: (('\n' :: (ind ++ gap)) ++
                    ('"' :: (mtail ++ ('\n' :: ind) ++ '\x7d' :: rest))) := by simp
              rw [hgoal]
              have hskip1 : skipWs (w ++ '\x7b' :: (('\n' :: (ind ++ gap)) ++
                  ('"' :: (mtail ++ ('\n' :: ind) ++ '\x7d' :: rest)))) =
                  '\x7b' :: (('\n' :: (ind ++ gap)) ++
                    ('"' :: (mtail ++ ('\n' :: ind) ++ '\x7d' :: rest))) :=
                skipWs_ws_append_cons w hw '\x7b' (by decide) _
              have hskip2 : skipWs (('\n' :: (ind ++ gap)) ++
                  ('"' :: (mtail ++ ('\n' :: ind) ++ '\x7d' :: rest))) =
                  '"' :: (mtail ++ ('\n' :: ind) ++ '\x7d' :: rest) :=
                skipWs_ws_append_cons _ hsepT '"' (by decide) _
              have hcall := hbparse pf [] ('\n' :: ind) rest
                (by simp only [List.length_cons, List.length_append, List.length_nil]
                      at hpf ⊢
                    omega)
                rfl (by simp [wsOnly, isJsonWs, hind])
              simp only [List.nil_append] at hcall
              simp only [parseVal, hskip1, hskip2, reduceIte]
              rw [show ('"' :: mtail) ++ ('\n' :: ind) ++ '\x7d' :: rest =
                '"' :: (mtail ++ ('\n' :: ind) ++ '\x7d' :: rest) from rfl] at hcall
              rw [hcall]
              rfl
    · -- items
      intro ind sep xs hsafe hsize hind hne hsep
      obtain ⟨sepTail, rfl, hsepTail⟩ := hsep
      cases xs with
      | nil => exact absurd rfl hne
      | cons x xs2 =>
        have hsx : jsonSafe x = true ∧ jsonSafeList xs2 = true := by
          simpa [jsonSafeList, Bool.and_eq_true] using hsafe
        have hsizex : jsSize x ≤ sf ∧ jsListSize xs2 ≤ sf := by
          simp only [jsListSize] at hsize
          have h1 := jsSize_pos x
          have h2 := jsListSize_pos xs2
          constructor <;> omega
        obtain ⟨ox, hox, hoxgood, hoxparse⟩ := ihV ind x hsx.1 hsizex.1 hind
        have hoxne : ox ≠ [] := by
          intro hcontra
          rw [hcontra] at hoxgood
          cases hoxgood
        cases xs2 with
        | nil =>
          have hbody : serializeItems gap (sf + 1) ind (',' :: sepTail) [x] = ox := by
            simp [serializeItems, hox]
          rw [hbody]
          refine ⟨hoxgood, ?_⟩
          intro pfuel w closeWs rest hpf hw hclose
          cases pfuel with
          | zero => omega
          | succ pf =>
            have hv := hoxparse pf w (closeWs ++ ']' :: rest) (by omega) hw
              (noDigitHead_ws_close closeWs ']' rest hclose (by decide))
            have hskipc : skipWs (closeWs ++ ']' :: rest) = ']' :: rest :=
              skipWs_ws_append_cons closeWs hclose ']' (by decide) _
            have hgoal : (w ++ ox ++ closeWs) ++ ']' :: rest =
                (w ++ ox) ++ (closeWs ++ ']' :: rest) := by simp
            rw [hgoal]
            simp only [parseItems, hv, Bind.bind, Option.bind, hskipc]
        | cons y ys =>
          have hbody : serializeItems gap (sf + 1) ind (',' :: sepTail) (x :: y :: ys) =
              (ox ++ (',' :: sepTail)) ++
                serializeItems gap sf ind (',' :: sepTail) (y :: ys) := by
            simp [serializeItems, hox]
          obtain ⟨hb2good, hb2parse⟩ := ihI ind (',' :: sepTail) (y :: ys) hsx.2 hsizex.2 hind
            (by simp) ⟨sepTail, rfl, hsepTail⟩
          rw [hbody]
          constructor
          · exact goodHead_append _ _ (goodHead_append _ _ hoxgood)
          · intro pfuel w closeWs rest hpf hw hclose
            cases pfuel with
            | zero => omega
            | succ pf =>
              have hlen : (((ox ++ (',' :: sepTail)) ++
                  serializeItems gap sf ind (',' :: sepTail) (y :: ys))).length =
                  ox.length + (1 + sepTail.length) +
                    (serializeItems gap sf ind (',' :: sepTail) (y :: ys)).length := by
                simp [List.length_append]
                omega
              have hoxlen : 1 ≤ ox.length := by
                cases ox with
                | nil => cases hoxgood
                | cons oh ot => simp
              have hv := hoxparse pf w
                ((',' :: sepTail) ++
                  (serializeItems gap sf ind (',' :: sepTail) (y :: ys) ++
                    (closeWs ++ ']' :: rest)))
                (by rw [hlen] at hpf; omega) hw rfl
              have hgoal : (w ++ ((ox ++ (',' :: sepTail)) ++
                    serializeItems gap sf ind (',' :: sepTail) (y :: ys)) ++ closeWs) ++
                    ']' :: rest =
                  (w ++ ox) ++ ((',' :: sepTail) ++
                    (serializeItems gap sf ind (',' :: sepTail) (y :: ys) ++
                      (closeWs ++ ']' :: rest))) := by simp
              rw [hgoal]
              have hskipc : skipWs ((',' :: sepTail) ++
                  (serializeItems gap sf ind (',' :: sepTail) (y :: ys) ++
                    (closeWs ++ ']' :: rest))) =
                  ',' :: (sepTail ++
                    (serializeItems gap sf ind (',' :: sepTail) (y :: ys) ++
                      (closeWs ++ ']' :: rest))) := by
                rw [List.cons_append]
                exact skipWs_not_ws _ _ (by decide)
              have hrec := hb2parse pf sepTail closeWs rest
                (by rw [hlen] at hpf; omega) hsepTail hclose
              have hrecarg : ((sepTail ++
                    serializeItems gap sf ind (',' :: sepTail) (y :: ys)) ++ closeWs) ++
                    ']' :: rest =
                  sepTail ++
                    (serializeItems gap sf ind (',' :: sepTail) (y :: ys) ++
                      (closeWs ++ ']' :: rest)) := by simp
              rw [hrecarg] at hrec
              simp only [parseItems, hv, Bind.bind, Option.bind, hskipc, hrec]
              rfl
    · -- members
      intro ind sep colon fs hsafe hsize hind hne hsep hcolon
      obtain ⟨sepTail, rfl, hsepTail⟩ := hsep
      obtain ⟨colonTail, rfl, hcolonTail⟩ := hcolon
      cases fs with
      | nil => exact absurd rfl hne
      | cons kv fs2 =>
        obtain ⟨k, v⟩ := kv
        have hsx : jsonSafe v = true ∧ jsonSafeFields fs2 = true := by
          simpa [jsonSafeFields, Bool.and_eq_true] using hsafe
        have hsizex : jsSize v ≤ sf ∧ jsFieldsSize fs2 ≤ sf := by
          simp only [jsFieldsSize] at hsize
          have h1 := jsSize_pos v
          have h2 := jsFieldsSize_pos fs2
          constructor <;> omega
        obtain ⟨sv, hsv, hsvgood, hsvparse⟩ := ihV ind v hsx.1 hsizex.1 hind
        have hsvlen : 1 ≤ sv.length := by
          cases sv with
          | nil => cases hsvgood
          | cons c r => simp
        have hqlen : (quoteChars k.data).length = (escapeChars k.data).length + 2 := by
          simp [quoteChars]
        cases fs2 with
        | nil =>
          have hbody : serializeMembers gap (sf + 1) ind (',' :: sepTail) (':' :: colonTail)
              [(k, v)] = quoteChars k.data ++ (':' :: colonTail) ++ sv := by
            simp [serializeMembers, hsv, serializeMembers_nil]
          rw [hbody]
          constructor
          · exact ⟨escapeChars k.data ++ ['"'] ++ (':' :: colonTail) ++ sv, by simp [quoteChars]⟩
          · intro pfuel w closeWs rest hpf hw hclose
            cases pfuel with
            | zero => omega
            | succ pf =>
              have hshape : (w ++ (quoteChars k.data ++ (':' :: colonTail) ++ sv) ++ closeWs) ++
                  '}' :: rest =
                  w ++ '"' :: (escapeChars k.data ++
                    '"' :: ':' :: (colonTail ++ (sv ++ (closeWs ++ '}' :: rest)))) := by
                simp [quoteChars]
              rw [hshape]
              have hskip1 : skipWs (w ++ '"' :: (escapeChars k.data ++
                  '"' :: ':' :: (colonTail ++ (sv ++ (closeWs ++ '}' :: rest))))) =
                  '"' :: (escapeChars k.data ++
                    '"' :: ':' :: (colonTail ++ (sv ++ (closeWs ++ '}' :: rest)))) :=
                skipWs_ws_append_cons w hw '"' (by decide) _
              have hstr := parseStringRest_escape k.data
                ((escapeChars k.data ++
                  '"' :: ':' :: (colonTail ++ (sv ++ (closeWs ++ '}' :: rest)))).length + 1)
                (':' :: (colonTail ++ (sv ++ (closeWs ++ '}' :: rest))))
                (by simp [List.length_append])
              have hv := hsvparse pf colonTail (closeWs ++ '}' :: rest)
                (by
                  simp only [List.length_append, List.length_cons] at hpf
                  omega)
                hcolonTail
                (noDigitHead_ws_close closeWs '}' rest hclose (by decide))
              have hvarg : (colonTail ++ sv) ++ (closeWs ++ '}' :: rest) =
                  colonTail ++ (sv ++ (closeWs ++ '}' :: rest)) := by simp
              rw [hvarg] at hv
              have hskipc : skipWs (closeWs ++ '}' :: rest) = '}' :: rest :=
                skipWs_ws_append_cons closeWs hclose '}' (by decide) _
              simp only [parseMembers, hskip1, hstr,
                skipWs_not_ws ':' _ (by decide), hv, hskipc, stringMk_data]
        | cons kv2 fs3 =>
          obtain ⟨⟨mtail, hmt⟩, hb2parse⟩ := ihM ind (',' :: sepTail) (':' :: colonTail)
            (kv2 :: fs3) hsx.2 hsizex.2 hind (by simp)
            ⟨sepTail, rfl, hsepTail⟩ ⟨colonTail, rfl, hcolonTail⟩
          have hbody : serializeMembers gap (sf + 1) ind (',' :: sepTail) (':' :: colonTail)
              ((k, v) :: kv2 :: fs3) =
              (quoteChars k.data ++ (':' :: colonTail) ++ sv) ++ (',' :: sepTail) ++
                serializeMembers gap sf ind (',' :: sepTail) (':' :: colonTail)
                  (kv2 :: fs3) := by
            simp [serializeMembers, hsv, hmt]
          rw [hbody]
          constructor
          · exact ⟨escapeChars k.data ++ ['"'] ++ (':' :: colonTail) ++ sv ++
              (',' :: sepTail) ++
              serializeMembers gap sf ind (',' :: sepTail) (':' :: colonTail) (kv2 :: fs3),
              by simp [quoteChars]⟩
          · intro pfuel w closeWs rest hpf hw hclose
            cases pfuel with
            | zero => omega
            | succ pf =>
              have hshape : (w ++ ((quoteChars k.data ++ (':' :: colonTail) ++ sv) ++
                  (',' :: sepTail) ++
                  serializeMembers gap sf ind (',' :: sepTail) (':' :: colonTail)
                    (kv2 :: fs3)) ++ closeWs) ++ '}' :: rest =
                  w ++ '"' :: (escapeChars k.data ++
                    '"' :: ':' :: (colonTail ++ (sv ++ (',' :: (sepTail ++
                      (serializeMembers gap sf ind (',' :: sepTail) (':' :: colonTail)
                        (kv2 :: fs3) ++ (closeWs ++ '}' :: rest))))))) := by
                simp [quoteChars]
              rw [hshape]
              have hskip1 : skipWs (w ++ '"' :: (escapeChars k.data ++
                  '"' :: ':' :: (colonTail ++ (sv ++ (',' :: (sepTail ++
                    (serializeMembers gap sf ind (',' :: sepTail) (':' :: colonTail)
                      (kv2 :: fs3) ++ (closeWs ++ '}' :: rest)))))))) =
                  '"' :: (escapeChars k.data ++
                    '"' :: ':' :: (colonTail ++ (sv ++ (',' :: (sepTail ++
                      (serializeMembers gap sf ind (',' :: sepTail) (':' :: colonTail)
                        (kv2 :: fs3) ++ (closeWs ++ '}' :: rest))))))) :=
                skipWs_ws_append_cons w hw '"' (by decide) _
              have hstr := parseStringRest_escape k.data
                ((escapeChars k.data ++
                  '"' :: ':' :: (colonTail ++ (sv ++ (',' :: (sepTail ++
                    (serializeMembers gap sf ind (',' :: sepTail) (':' :: colonTail)
                      (kv2 :: fs3) ++ (closeWs ++ '}' :: rest))))))).length + 1)
                (':' :: (colonTail ++ (sv ++ (',' :: (sepTail ++
                  (serializeMembers gap sf ind (',' :: sepTail) (':' :: colonTail)
                    (kv2 :: fs3) ++ (closeWs ++ '}' :: rest)))))))
                (by simp [List.length_append])
              have hv := hsvparse pf colonTail
                (',' :: (sepTail ++
                  (serializeMembers gap sf ind (',' :: sepTail) (':' :: colonTail)
                    (kv2 :: fs3) ++ (closeWs ++ '}' :: rest))))
                (by
                  simp only [List.length_append, List.length_cons] at hpf
                  omega)
                hcolonTail rfl
              have hvarg : (colonTail ++ sv) ++ (',' :: (sepTail ++
                  (serializeMembers gap sf ind (',' :: sepTail) (':' :: colonTail)
                    (kv2 :: fs3) ++ (closeWs ++ '}' :: rest)))) =
                  colonTail ++ (sv ++ (',' :: (sepTail ++
                    (serializeMembers gap sf ind (',' :: sepTail) (':' :: colonTail)
                      (kv2 :: fs3) ++ (closeWs ++ '}' :: rest))))) := by simp
              rw [hvarg] at hv
              have hrec := hb2parse pf sepTail closeWs rest
                (by
                  simp only [List.length_append, List.length_cons] at hpf
                  omega)
                hsepTail hclose
              have hrecarg : ((sepTail ++
                  serializeMembers gap sf ind (',' :: sepTail) (':' :: colonTail)
                    (kv2 :: fs3)) ++ closeWs) ++ '}' :: rest =
                  sepTail ++
                    (serializeMembers gap sf ind (',' :: sepTail) (':' :: colonTail)
                      (kv2 :: fs3) ++ (closeWs ++ '}' :: rest)) := by simp
              rw [hrecarg] at hrec
              simp only [parseMembers, hskip1, hstr,
                skipWs_not_ws ':' _ (by decide), hv,
                skipWs_not_ws ',' _ (by decide), hrec, stringMk_data]
              rfl




/-- C4, counterexample: `x := c4x0` is a well-typed `DashboardConfig`
(its `config` payload holds `undefined`, which `Record<string, unknown>`
admits), yet `parseConfig (exportAsJSON x false)` is not deep-equal to
`x`: serialization drops the `undefined`-valued member, so the key `"v"`
is missing from the round-tripped value. -/
theorem c4_counterexample :
    parseConfig (exportAsJSON c4x0 false) = c4x0parsed ∧ c4x0parsed ≠ toJs c4x0 := by
  refine ⟨rfl, ?_⟩
  simp [c4x0, c4x0parsed, toJs, dashboardToJs, componentToJs, optStrField, optNumField,
    componentTypeStr, layoutStr]

/-- C4, amended: for a well-typed config whose serialized image carries no
`undefined` (and no duplicated payload keys), the compact round trip is the
identity, and the pretty flag changes only whitespace: parsing the pretty
output yields exactly what parsing the compact output yields. -/
theorem c4_safe_roundtrip (x : DashboardConfig)
    (hsafe : jsonSafe (toJs x) = true) :
    parseConfig (exportAsJSON x false) = toJs x ∧
    parseConfig (exportAsJSON x true) = parseConfig (exportAsJSON x false) := by
  have core : ∀ gap : List Char, wsOnly gap = true →
      parseConfig (String.mk
        ((serializeVal gap (jsSize (toJs x)) [] (toJs x)).getD [])) = toJs x := by
    intro gap hgap
    obtain ⟨out, hout, hgood, hparse⟩ :=
      (roundtrip_main gap hgap (jsSize (toJs x))).1 [] (toJs x) hsafe (le_refl _) rfl
    have hp := hparse (2 * out.length + 2) [] [] (by omega) rfl rfl
    simp only [List.nil_append, List.append_nil] at hp
    rw [hout]
    show parseConfig (String.mk out) = toJs x
    have hjp : jsonParse (String.mk out) = some (toJs x) := by
      show (match parseVal (2 * out.length + 2) out with
            | some (v, rest) => if skipWs rest = [] then some v else none
            | none => none) = some (toJs x)
      rw [hp]
      rfl
    simp only [parseConfig, hjp]
  have h1 : parseConfig (exportAsJSON x false) = toJs x := core [] rfl
  have h2 : parseConfig (exportAsJSON x true) = toJs x := core [' ', ' '] rfl
  exact ⟨h1, h2.trans h1.symm⟩

/-- C4 witness: the amended round trip at the sample generator. -/
theorem c4_safe_roundtrip_witness :
    jsonSafe (toJs createSampleConfig) = true ∧
    (parseConfig (exportAsJSON createSampleConfig false) = toJs createSampleConfig ∧
     parseConfig (exportAsJSON createSampleConfig true) =
       parseConfig (exportAsJSON createSampleConfig false)) :=
  ⟨rfl, c4_safe_roundtrip createSampleConfig rfl⟩

end DevDash
